import Mathlib

/-
Verification of the HR chatbot text-to-SQL pipeline (src/chat_engine.py and
src/rag_sql.py) against its natural-language specification.

The Python string functions are embedded shallowly over `List Char`.  The
external LLM (`chat` in src/llm_clients.py) is modelled as an oracle indexed by
invocation count, receiving the exact message lists the code builds; the SQLite
engine behind `pd.read_sql` is modelled as an explicit collaborator function.
Python's `str.strip`, `str.lower` and the regexes act on ASCII SQL text here,
so the ASCII fragments of those operations are modelled.
-/

set_option maxRecDepth 40000
set_option maxHeartbeats 1000000

namespace HRBot

/-- A Python string, as its list of characters. -/
abbrev Str := List Char

/-- Characters of a Lean string literal. -/
def strL (s : String) : Str := s.data

/-- ASCII whitespace: the characters Python `str.strip` and the regex class
match on the ASCII text handled by this pipeline. -/
def isSpaceC (c : Char) : Bool :=
  c.toNat == 32 || c.toNat == 9 || c.toNat == 10 || c.toNat == 13 ||
  c.toNat == 11 || c.toNat == 12

/-- Regex word character [A-Za-z0-9_], used for word-boundary checks. -/
def isWordC (c : Char) : Bool :=
  (48 ≤ c.toNat && c.toNat ≤ 57) || (65 ≤ c.toNat && c.toNat ≤ 90) ||
  (97 ≤ c.toNat && c.toNat ≤ 122) || c.toNat == 95

/-- ASCII lower-casing of one character (`str.lower` on ASCII text). -/
def lowerChar (c : Char) : Char :=
  if h : 65 ≤ c.toNat ∧ c.toNat ≤ 90 then
    Char.ofNatAux (c.toNat + 32) (Or.inl (by omega))
  else c

/-- ASCII upper-casing of one character (`str.upper` on ASCII text). -/
def upperChar (c : Char) : Char :=
  if h : 97 ≤ c.toNat ∧ c.toNat ≤ 122 then
    Char.ofNatAux (c.toNat - 32) (Or.inl (by omega))
  else c

def lowerS (s : Str) : Str := s.map lowerChar

def upperS (s : Str) : Str := s.map upperChar

/-- Python `str.strip`, left side. -/
def stripL (s : Str) : Str := s.dropWhile isSpaceC

/-- Python `str.strip`, right side. -/
def stripR (s : Str) : Str := (s.reverse.dropWhile isSpaceC).reverse

/-- Python `s.strip()`. -/
def strip (s : Str) : Str := stripR (stripL s)

/-- Python `s.rstrip(";")`. -/
def rstripSemi (s : Str) : Str := (s.reverse.dropWhile (fun c => c == ';')).reverse

/-- Python `s.strip(";")`. -/
def stripSemiBoth (s : Str) : Str :=
  ((s.dropWhile (fun c => c == ';')).reverse.dropWhile (fun c => c == ';')).reverse

/-- Contiguous-substring test, Python `pat in s`. -/
def containsSeq (pat : Str) : Str → Bool
  | [] => pat.isEmpty
  | c :: t => pat.isPrefixOf (c :: t) || containsSeq pat t

/-- One pass of `re.sub` with a single-space replacement for each maximal
whitespace run: the worker behind `re.sub` of one-or-more whitespace.
`prevSp` records whether the previous character was whitespace. -/
def collapseGo (prevSp : Bool) : Str → Str
  | [] => []
  | c :: t =>
    if isSpaceC c then
      if prevSp then collapseGo true t else ' ' :: collapseGo true t
    else c :: collapseGo false t

/-- `re.sub` collapsing every whitespace run to a single space. -/
def collapseWS (s : Str) : Str := collapseGo false s

/-- Python `str.replace`: replace every non-overlapping occurrence of `p`
(scanned left to right) by `r`.  The `Nat` argument is fuel, always
instantiated with the length of the scanned text, which suffices because every
step consumes at least one character. -/
def replaceGo (p r : Str) : Nat → Str → Str
  | _, [] => []
  | 0, s => s
  | n + 1, c :: t =>
    if p.isPrefixOf (c :: t) then r ++ replaceGo p r n (List.drop (p.length - 1) t)
    else c :: replaceGo p r n t

/-- Python `s.replace(p, r)` for a non-empty pattern. -/
def replaceAll (p r s : Str) : Str := if p.isEmpty then s else replaceGo p r s.length s

/-- Does the whole-word, case-insensitive token "only" start here?  `prevW`
says whether the previous character of the original text is a word character
(word boundaries are judged on the original text, as `re.sub` does). -/
def onlyAt (prevW : Bool) (c1 c2 c3 c4 : Char) (rest : Str) : Bool :=
  lowerChar c1 == 'o' && lowerChar c2 == 'n' && lowerChar c3 == 'l' && lowerChar c4 == 'y' &&
  !prevW && (match rest.head? with | some c5 => !isWordC c5 | none => true)

/-- Scanner for `re.sub` deleting each whole-word "Only" (case-insensitive). -/
def removeOnlyGo (prevW : Bool) : Str → Str
  | c1 :: c2 :: c3 :: c4 :: rest =>
    if onlyAt prevW c1 c2 c3 c4 rest then removeOnlyGo true rest
    else c1 :: removeOnlyGo (isWordC c1) (c2 :: c3 :: c4 :: rest)
  | c :: t => c :: removeOnlyGo (isWordC c) t
  | [] => []

/-- `re.sub` deleting each whole-word "Only" (case-insensitive). -/
def removeOnly (s : Str) : Str := removeOnlyGo false s

/-- First suffix of the text whose lower-casing starts with "select", if any. -/
def sliceSelGo : Str → Option Str
  | [] => none
  | c :: t =>
    if (strL ("select")).isPrefixOf (lowerS (c :: t)) then some (c :: t) else sliceSelGo t

/-- The slice `s[idx:]` from the first case-insensitive occurrence of "select"
(`idx = s.lower().find("select"); if idx > 0: s = s[idx:]`); unchanged when
"select" does not occur or already starts the text. -/
def sliceSel (s : Str) : Str := match sliceSelGo s with | some t => t | none => s

/-- Matcher at the start of the text for the case-insensitive regex
"select", one-or-more whitespace, "count", any whitespace, "(". -/
def matchCountAt (s : Str) : Bool :=
  (strL ("select")).isPrefixOf (lowerS s) &&
  (let t := List.drop 6 s
   !(t.takeWhile isSpaceC).isEmpty &&
   (let t1 := t.dropWhile isSpaceC
    (strL ("count")).isPrefixOf (lowerS t1) &&
    ((List.drop 5 t1).dropWhile isSpaceC).head? == some '('))

/-- `re.search` for the count-form regex of `ensure_limit`. -/
def searchCount : Str → Bool
  | [] => false
  | c :: t => matchCountAt (c :: t) || searchCount t

/-- Matcher at the start of the (already lower-cased) text for the regex
"select", one-or-more whitespace, literal word `w`, word boundary. -/
def wordAfterSelectAt (w : Str) (s : Str) : Bool :=
  (strL ("select")).isPrefixOf s &&
  (let t := List.drop 6 s
   !(t.takeWhile isSpaceC).isEmpty &&
   (let t1 := t.dropWhile isSpaceC
    w.isPrefixOf t1 &&
    (match (List.drop w.length t1).head? with | some c => !isWordC c | none => true)))

/-- Matcher at the start of the text for the regex "select", one-or-more
whitespace, "*", any whitespace, "limit", word boundary. -/
def starLimitAt (s : Str) : Bool :=
  (strL ("select")).isPrefixOf s &&
  (let t := List.drop 6 s
   !(t.takeWhile isSpaceC).isEmpty &&
   (let t1 := t.dropWhile isSpaceC
    t1.head? == some '*' &&
    (let t2 := (List.drop 1 t1).dropWhile isSpaceC
     (strL ("limit")).isPrefixOf t2 &&
     (match (List.drop 5 t2).head? with | some c => !isWordC c | none => true))))

/-- `re.search` over the deny-list of degenerate shapes in `is_valid_sql_for_hr`. -/
def searchBadPattern : Str → Bool
  | [] => false
  | c :: t =>
    wordAfterSelectAt (strL ("query")) (c :: t) ||
    wordAfterSelectAt (strL ("sql")) (c :: t) ||
    wordAfterSelectAt (strL ("data")) (c :: t) ||
    starLimitAt (c :: t) ||
    searchBadPattern t

/-- Case-insensitive whole-word match of `w` at the start of the text; `prevW`
says whether the preceding original character is a word character. -/
def wordHereCI (w : Str) (prevW : Bool) (s : Str) : Bool :=
  (lowerS w).isPrefixOf (lowerS s) && !prevW &&
  (match (List.drop w.length s).head? with | some c => !isWordC c | none => true)

def containsWordCIGo (w : Str) (prevW : Bool) : Str → Bool
  | [] => false
  | c :: t => wordHereCI w prevW (c :: t) || containsWordCIGo w (isWordC c) t

/-- `re.search` of a whole-word keyword, case-insensitive. -/
def containsWordCI (w s : Str) : Bool := containsWordCIGo w false s

/-
Model of src/rag_sql.py.
-/

def TABLE_NAME : Str := strL ("employees")

def ALLOWED_COLUMNS : List Str :=
  [strL ("Age"), strL ("Attrition"), strL ("BusinessTravel"), strL ("DailyRate"),
   strL ("Department"), strL ("DistanceFromHome"), strL ("Education"),
   strL ("EducationField"), strL ("EmployeeCount"), strL ("EmployeeNumber"),
   strL ("EnvironmentSatisfaction"), strL ("Gender"), strL ("HourlyRate"),
   strL ("JobInvolvement"), strL ("JobLevel"), strL ("JobRole"),
   strL ("JobSatisfaction"), strL ("MaritalStatus"), strL ("MonthlyIncome"),
   strL ("MonthlyRate"), strL ("NumCompaniesWorked"), strL ("Over18"),
   strL ("OverTime"), strL ("PercentSalaryHike"), strL ("PerformanceRating"),
   strL ("RelationshipSatisfaction"), strL ("StandardHours"),
   strL ("StockOptionLevel"), strL ("TotalWorkingYears"),
   strL ("TrainingTimesLastYear"), strL ("WorkLifeBalance"),
   strL ("YearsAtCompany"), strL ("YearsInCurrentRole"),
   strL ("YearsSinceLastPromotion"), strL ("YearsWithCurrManager")]

def SCHEMA_HINT : Str :=
  strL ("\nSQLite table: ") ++ TABLE_NAME ++ strL ("\nColumns: ") ++
  List.intercalate (strL (", ")) ALLOWED_COLUMNS ++
  strL ("\n\nRules:\n- Only generate SELECT queries.\n- Never use INSERT, UPDATE, DELETE, DROP, ALTER, PRAGMA, ATTACH, DETACH, CREATE.\n- Prefer aggregations (COUNT, AVG, MIN, MAX) when asked for summaries.\n- Default LIMIT 50 unless the user asks for full output.\n")

/-- The nine alternatives of the FORBIDDEN_SQL whole-word regex. -/
def FORBIDDEN_WORDS : List Str :=
  [strL ("INSERT"), strL ("UPDATE"), strL ("DELETE"), strL ("DROP"), strL ("ALTER"),
   strL ("PRAGMA"), strL ("ATTACH"), strL ("DETACH"), strL ("CREATE")]

/-- `is_safe_sql`: strip surrounding whitespace, then surrounding semicolons;
accept only a case-insensitive "select" start with no forbidden whole word. -/
def is_safe_sql (query : Str) : Bool :=
  let q := stripSemiBoth (strip query)
  (strL ("select")).isPrefixOf (lowerS q) &&
  !(FORBIDDEN_WORDS.any (fun w => containsWordCI w q))

def unsafeMsg : Str := strL ("Unsafe SQL detected. Only SELECT queries are allowed.")

/-- A result table: its rows, each row kept as opaque rendered text. -/
abbrev Df := List Str

/-- The SQLite engine behind `pd.read_sql`, as an opaque collaborator. -/
abbrev Engine := Str → Except Str Df

/-- `run_sql` with the engine explicit.  The second component lists the queries
actually forwarded to the engine: empty when the statement is rejected by the
safety gate before touching the database. -/
def run_sql (engine : Engine) (query : Str) : Except Str Df × List Str :=
  if is_safe_sql query then (engine query, [query]) else (Except.error unsafeMsg, [])

/-
Model of src/chat_engine.py.
-/

/-- One chat message: role and content. -/
abbrev Msg := Str × Str

/-- The external generator (`chat`): a possibly nondeterministic collaborator,
modelled as an oracle indexed by invocation count and fed the exact message
list the code builds.  Temperature and backend mode select decoding options on
the collaborator and are absorbed into the oracle. -/
abbrev Oracle := Nat → List Msg → Str

def SQL_SYSTEM : Str :=
  strL ("\nYou are an expert data analyst who writes SQLite SQL for the HR dataset.\n\n") ++
  SCHEMA_HINT ++
  strL ("\n\nCRITICAL RULES:\n- Table name is exactly: employees\n- Attrition is TEXT with values 'Yes' or 'No' (NOT 1/0). Never use Attrition = 1 or Attrition = 0.\n- Department is TEXT.\n- MonthlyIncome, Age, JobSatisfaction are numeric columns.\n- For rates/percentages: avoid integer division by using 1.0 * ... or 100.0 * ...\n- Output ONLY ONE SQL SELECT query. No explanations. No markdown fences.\n")

def ANSWER_SYSTEM : Str :=
  strL ("\nYou are a professional HR consultant.\n\nRules:\n- Provide ONLY the final answer to the user.\n- Do NOT explain your reasoning.\n- Do NOT describe SQL execution.\n- Do NOT mention tables, queries, or internal steps.\n- Keep the answer concise and professional.\n- Use at most 2 short bullet points or 1 short paragraph.\n\nIMPORTANT:\n- If results are present, NEVER say \"no matching records\".\n- If results are empty, say no matching records were found and suggest a better filter.\n")

/-- `_normalize_sql`: drop code fences, trim, collapse whitespace runs, trim. -/
def normalize_sql (sql : Str) : Str :=
  let s1 := replaceAll (strL ("```sql")) [] sql
  let s2 := replaceAll (strL ("```")) [] s1
  strip (collapseWS (strip s2))

/-- `_extract_first_select`: normalize, drop stray "Only" tokens, keep the text
up to the first semicolon (re-appending it), slice from the first
case-insensitive "select", trim. -/
def extract_first_select (sql : Str) : Str :=
  let s0 := normalize_sql sql
  let s1 := strip (removeOnly s0)
  let s2 := if s1.any (fun c => c == ';') then
      strip (s1.takeWhile (fun c => c != ';')) ++ [';']
    else s1
  strip (sliceSel s2)

/-- `_contains_bad_attrition`: the four detected categorical-as-numeral forms,
looked for in the lower-cased extracted statement. -/
def contains_bad_attrition (sql : Str) : Bool :=
  let s := lowerS (extract_first_select sql)
  containsSeq (strL ("attrition = 1")) s || containsSeq (strL ("attrition=1")) s ||
  containsSeq (strL ("attrition = 0")) s || containsSeq (strL ("attrition=0")) s

/-- `is_valid_sql_for_hr`. -/
def is_valid_sql_for_hr (sql : Str) : Bool :=
  let s := lowerS (extract_first_select sql)
  (strL ("select")).isPrefixOf s &&
  containsSeq (strL (" from employees")) s &&
  !contains_bad_attrition s &&
  !searchBadPattern s

/-- `ensure_limit`. -/
def ensure_limit (sql : Str) (default_limit : Nat) : Str :=
  let s := extract_first_select sql
  if searchCount s then rstripSemi s ++ [';']
  else if !containsSeq (strL ("limit")) (lowerS s) then
    rstripSemi s ++ strL (" LIMIT ") ++ strL (toString default_limit) ++ [';']
  else s

/-- `is_count_question`. -/
def is_count_question (q : Str) : Bool :=
  let l := lowerS q
  containsSeq (strL ("how many")) l || containsSeq (strL ("count")) l ||
  containsSeq (strL ("number of")) l || containsSeq (strL ("total")) l

/-- The pre-authored attrition-rate-by-department template, with the exact text
the Python triple-quoted literal yields after `.strip()`. -/
def rate_by_department_sql : Str :=
  strL ("SELECT\n          Department,\n          ROUND(100.0 * SUM(CASE WHEN Attrition = 'Yes' THEN 1 ELSE 0 END) / COUNT(*), 2)\n            AS AttritionRatePercent\n        FROM employees\n        GROUP BY Department\n        ORDER BY AttritionRatePercent DESC;")

/-- The pre-authored average-MonthlyIncome-by-department template. -/
def avg_income_by_department_sql : Str :=
  strL ("SELECT\n          Department,\n          ROUND(AVG(MonthlyIncome), 2) AS AvgMonthlyIncome\n        FROM employees\n        GROUP BY Department\n        ORDER BY AvgMonthlyIncome DESC;")

/-- `_match_known_sql`. -/
def match_known_sql (user_question : Str) : Option Str :=
  let q := lowerS (strip user_question)
  if containsSeq (strL ("attrition rate")) q && containsSeq (strL ("department")) q then
    some rate_by_department_sql
  else if (containsSeq (strL ("average")) q || containsSeq (strL ("avg")) q) &&
      containsSeq (strL ("monthlyincome")) q && containsSeq (strL ("department")) q then
    some avg_income_by_department_sql
  else none

/-- The fixed row-count statement of the count shortcut. -/
def count_all_sql : Str := strL ("SELECT COUNT(*) AS employee_count FROM employees;")

/-- `summarize_memory` with its default window of 6 turns. -/
def summarize_memory (memory : List Msg) : Str :=
  let recent := memory.drop (memory.length - 6)
  List.intercalate (strL ("\n")) (recent.map (fun m => upperS m.1 ++ strL (": ") ++ m.2))

/-- The comparison/filter qualifier words of the count shortcut. -/
def filter_words : List Str :=
  [strL ("where"), strL ("above"), strL ("below"), strL ("greater"), strL ("less"),
   strL ("older"), strL ("younger"), strL (">"), strL ("<"), strL ("=")]

def has_filter_word (q : Str) : Bool := filter_words.any (fun w => containsSeq w (lowerS q))

/-- Message list built by `_llm_sql` inside `generate_sql`. -/
def llm_sql_messages (user_question : Str) (memory : List Msg) (extra : Str) : List Msg :=
  [(strL ("system"), SQL_SYSTEM)] ++
  (if memory.isEmpty then [] else
    [(strL ("user"), strL ("Conversation context (for follow-up questions):")),
     (strL ("user"), summarize_memory memory)]) ++
  (if extra.isEmpty then [] else [(strL ("user"), extra)]) ++
  [(strL ("user"), strL ("Question: ") ++ user_question)]

def guard_instruction : Str :=
  strL ("Reminder: Attrition is TEXT ('Yes'/'No'), never 1/0. Fix and output ONE valid SELECT query.")

def retry_instruction : Str :=
  strL ("Your previous SQL was invalid. You MUST query the SQLite table 'employees' and output ONLY ONE valid SELECT statement. Include 'FROM employees'. Attrition is TEXT ('Yes'/'No'). For rates use 100.0*SUM(CASE...)/COUNT(*). If the question asks 'how many', use SELECT COUNT(*).")

/-- The first generation attempt of `generate_sql` followed by its
categorical-as-numeral guard regeneration; returns the candidate and the next
generator-call index. -/
def gen_guard_stage (oracle : Oracle) (user_question : Str) (memory : List Msg) (n0 : Nat) :
    Str × Nat :=
  let sql := ensure_limit (oracle n0 (llm_sql_messages user_question memory [])) 50
  if contains_bad_attrition sql then
    (ensure_limit (oracle (n0 + 1) (llm_sql_messages user_question memory guard_instruction)) 50,
     n0 + 2)
  else (sql, n0 + 1)

/-- `generate_sql`; returns the statement and the next generator-call index
(`n0` is the index of the first call this invocation may make). -/
def generate_sql (oracle : Oracle) (user_question : Str) (memory : List Msg) (n0 : Nat) :
    Str × Nat :=
  match match_known_sql user_question with
  | some known => (known, n0)
  | none =>
    if is_count_question user_question && !has_filter_word user_question then
      (count_all_sql, n0)
    else
      let r := gen_guard_stage oracle user_question memory n0
      if is_valid_sql_for_hr r.1 then r
      else (ensure_limit (oracle r.2 (llm_sql_messages user_question memory retry_instruction)) 50,
            r.2 + 1)

/-- Message list built by `repair_sql`. -/
def repair_messages (user_question bad_sql error_msg : Str) : List Msg :=
  [(strL ("system"), SQL_SYSTEM),
   (strL ("user"), strL ("The SQL you wrote failed in SQLite. Fix it.")),
   (strL ("user"), strL ("Question: ") ++ user_question),
   (strL ("user"), strL ("Bad SQL:\n") ++ bad_sql),
   (strL ("user"), strL ("SQLite error:\n") ++ error_msg),
   (strL ("user"), strL ("Return ONLY ONE corrected SQL query."))]

/-- The four case-sensitive textual substitutions of the repair guard, in
source order. -/
def attrition_fixups (s : Str) : Str :=
  replaceAll (strL ("Attrition=0")) (strL ("Attrition='No'"))
    (replaceAll (strL ("Attrition = 0")) (strL ("Attrition = 'No'"))
      (replaceAll (strL ("Attrition=1")) (strL ("Attrition='Yes'"))
        (replaceAll (strL ("Attrition = 1")) (strL ("Attrition = 'Yes'")) s)))

/-- `repair_sql` (its `memory` argument is accepted and unused, as in the
source); returns the statement and the next generator-call index. -/
def repair_sql (oracle : Oracle) (n : Nat) (user_question bad_sql error_msg : Str)
    (memory : List Msg) : Str × Nat :=
  let fixed := ensure_limit (oracle n (repair_messages user_question bad_sql error_msg)) 50
  (if contains_bad_attrition fixed then attrition_fixups fixed else fixed, n + 1)

/-- The fixed deterministic empty-result answer. -/
def no_records_msg : Str :=
  strL ("No matching records were found. Try refining the question (e.g., specify a department, a range, or a specific attribute).")

/-- `df.head(20).to_markdown(index=False)`, with the row rendering abstracted:
rows are opaque pre-rendered lines. -/
def render_preview (df : Df) : Str := List.intercalate (strL ("\n")) (df.take 20)

/-- Message list built by `answer_with_data` on the non-empty path. -/
def answer_messages (user_question : Str) (df : Df) (memory : List Msg) : List Msg :=
  [(strL ("system"), ANSWER_SYSTEM)] ++
  (if memory.isEmpty then [] else
    [(strL ("user"), strL ("Conversation context (for follow-up questions):")),
     (strL ("user"), summarize_memory memory)]) ++
  [(strL ("user"), strL ("The query returned rows. Do NOT say 'no matching records'.")),
   (strL ("user"), strL ("User question: ") ++ user_question),
   (strL ("user"), strL ("Result preview:\n") ++ render_preview df)]

/-- `answer_with_data`; returns the answer and the next generator-call index. -/
def answer_with_data (oracle : Oracle) (n : Nat) (user_question sql : Str) (df : Option Df)
    (memory : List Msg) : Str × Nat :=
  match df with
  | none => (no_records_msg, n)
  | some d =>
    if d.isEmpty then (no_records_msg, n)
    else (strip (oracle n (answer_messages user_question d memory)), n + 1)

/-- Message list of the fallback regeneration inside `ask_hr_bot`. -/
def fallback_messages (user_question : Str) : List Msg :=
  [(strL ("system"), SQL_SYSTEM),
   (strL ("user"), strL ("Write ONE valid SQLite SELECT query using FROM employees only.")),
   (strL ("user"), strL ("Attrition is TEXT ('Yes'/'No'), never 1/0.")),
   (strL ("user"), strL ("For rates use 100.0*SUM(CASE...)/COUNT(*).")),
   (strL ("user"), strL ("Question: ") ++ user_question)]

/-- The statement `ask_hr_bot` holds at its first `run_sql` call, with the
number of generator calls made up to that point. -/
def pre_exec (oracle : Oracle) (user_question : Str) (memory : List Msg) : Str × Nat :=
  let g := generate_sql oracle user_question memory 0
  if is_valid_sql_for_hr g.1 then g
  else (ensure_limit (oracle g.2 (fallback_messages user_question)) 50, g.2 + 1)

/-- One full run of `ask_hr_bot`: its outcome, the statements passed to
`run_sql` in order, the statements the engine actually received, and the total
number of generator calls. -/
structure BotRun where
  result : Except Str (Str × Str × Df)
  execTrace : List Str
  engineTrace : List Str
  genCalls : Nat

/-- Case analysis on an execution outcome. -/
def exceptCases {α : Type} (r : Except Str Df) (fok : Df → α) (ferr : Str → α) : α :=
  match r with
  | Except.ok d => fok d
  | Except.error e => ferr e

/-- The execute / repair-once / re-execute / compose phase of `ask_hr_bot`,
taking the pre-execution statement and call count `p`.  Shared subexpressions
of the source (`rep`, `r1`, `r2`, `a`) are written out in full. -/
def exec_and_answer (oracle : Oracle) (engine : Engine) (q : Str) (memory : List Msg)
    (p : Str × Nat) : BotRun :=
  exceptCases (run_sql engine p.1).1
    (fun df =>
      ⟨Except.ok ((answer_with_data oracle p.2 q p.1 (some df) memory).1, p.1, df),
       [p.1], (run_sql engine p.1).2,
       (answer_with_data oracle p.2 q p.1 (some df) memory).2⟩)
    (fun e =>
      exceptCases (run_sql engine (repair_sql oracle p.2 q p.1 e memory).1).1
        (fun df =>
          ⟨Except.ok ((answer_with_data oracle (repair_sql oracle p.2 q p.1 e memory).2 q
              (repair_sql oracle p.2 q p.1 e memory).1 (some df) memory).1,
              (repair_sql oracle p.2 q p.1 e memory).1, df),
           [p.1, (repair_sql oracle p.2 q p.1 e memory).1],
           (run_sql engine p.1).2 ++ (run_sql engine (repair_sql oracle p.2 q p.1 e memory).1).2,
           (answer_with_data oracle (repair_sql oracle p.2 q p.1 e memory).2 q
             (repair_sql oracle p.2 q p.1 e memory).1 (some df) memory).2⟩)
        (fun e2 =>
          ⟨Except.error e2, [p.1, (repair_sql oracle p.2 q p.1 e memory).1],
           (run_sql engine p.1).2 ++ (run_sql engine (repair_sql oracle p.2 q p.1 e memory).1).2,
           (repair_sql oracle p.2 q p.1 e memory).2⟩))

/-- `ask_hr_bot`: generate, re-validate (regenerating once on failure), execute,
repair once on execution failure, re-execute, compose the answer; a second
execution failure propagates. -/
def ask_hr_bot (oracle : Oracle) (engine : Engine) (user_question : Str)
    (memory : List Msg) : BotRun :=
  exec_and_answer oracle engine user_question memory (pre_exec oracle user_question memory)

instance : DecidableEq (Except Str Df) := fun a b =>
  match a, b with
  | Except.ok x, Except.ok y =>
    if h : x = y then Decidable.isTrue (by rw [h])
    else Decidable.isFalse (fun hc => h (Except.ok.inj hc))
  | Except.error x, Except.error y =>
    if h : x = y then Decidable.isTrue (by rw [h])
    else Decidable.isFalse (fun hc => h (Except.error.inj hc))
  | Except.ok x, Except.error y => Decidable.isFalse (fun hc => Except.noConfusion hc)
  | Except.error x, Except.ok y => Decidable.isFalse (fun hc => Except.noConfusion hc)

/-
Spec-side predicates, written from the specification's words, for comparing a
claim against the code model.
-/

/-- Spec-side: does a comparison of the categorical Attrition column against a
numeral start here, under ANY spacing of the equality operator
(case-insensitive)? -/
def attritionNumCmpAt (s : Str) : Bool :=
  (strL ("attrition")).isPrefixOf (lowerS s) &&
  (let t := (List.drop 9 s).dropWhile isSpaceC
   match t.head? with
   | some c =>
     c == '=' &&
     (match ((List.drop 1 t).dropWhile isSpaceC).head? with
      | some d => d.isDigit
      | none => false)
   | none => false)

/-- Spec-side: the statement contains, anywhere, a comparison of the Attrition
column against a numeral, under any spacing and letter case. -/
def specAttritionNumCmp : Str → Bool
  | [] => false
  | c :: t => attritionNumCmpAt (c :: t) || specAttritionNumCmp t

/-
Normal form for statements: the syntactic conditions under which the
sanitizer's normalize/extract pass is the identity.
-/

/-- Every whitespace character is a plain space. -/
def wsOK (s : Str) : Bool := s.all (fun c => !isSpaceC c || c == ' ')

/-- No two adjacent whitespace characters. -/
def noDbl : Str → Bool
  | c :: d :: t => !(isSpaceC c && isSpaceC d) && noDbl (d :: t)
  | _ => true

def headNotSp : Str → Bool
  | [] => true
  | c :: _ => !isSpaceC c

def lastNotSp (s : Str) : Bool := headNotSp s.reverse

/-- No code fence. -/
def noFence (s : Str) : Bool := !containsSeq (strL ("```")) (lowerS s)

/-- No occurrence of "only" at all (stronger than the whole-word condition the
extractor reacts to). -/
def noOnlyWord (s : Str) : Bool := !containsSeq (strL ("only")) (lowerS s)

/-- Semicolons occur at most as the final character, not preceded by a space. -/
def semiShape (s : Str) : Bool :=
  !(s.dropLast.any (fun c => c == ';')) &&
  (match s.reverse with
   | c :: d :: _ => !(c == ';' && isSpaceC d)
   | _ => true)

/-- The text either starts with "select" (case-insensitively) or does not
contain it at all, so the select-slicing step cannot move. -/
def selShape (s : Str) : Bool :=
  (strL ("select")).isPrefixOf (lowerS s) || !containsSeq (strL ("select")) (lowerS s)

/-- Sanitizer-normal form: non-degenerate statements the normalize/extract pass
leaves unchanged. -/
def cleanSQL (s : Str) : Bool :=
  !s.isEmpty && !(s == [';']) && noFence s && wsOK s && noDbl s && headNotSp s &&
  lastNotSp s && noOnlyWord s && semiShape s && selShape s

/-
Concrete collaborators used to exercise the model at specific inputs.
-/

/-- A generator that always answers with the same text. -/
def constOracle (s : Str) : Oracle := fun _ _ => s

/-- A generator whose first answer has a detectable categorical-as-numeral
comparison and whose later answers are not valid statements. -/
def oracleC2 : Oracle := fun n _ =>
  if n == 0 then strL ("SELECT x FROM t WHERE Attrition = 1") else strL ("hello")

/-- An engine that reports a runtime error on every statement. -/
def errEngine : Engine := fun _ => Except.error (strL ("db error"))

/-- An engine that returns one row for every statement. -/
def okEngine : Engine := fun _ => Except.ok [strL ("row")]

/-- The statement the mixed-spacing run actually executes. -/
def mixed_attrition_sql : Str := strL ("SELECT Age FROM employees WHERE Attrition =1 LIMIT 50;")

/-
Theorems.  Shared helper lemmas come first; each claim then has one theorem
(with a witness when it carries hypotheses, and a counterexample when the claim
as frozen fails on the code).
-/

theorem match_known_sql_cases {q t : Str} (h : match_known_sql q = some t) :
    t = rate_by_department_sql ∨ t = avg_income_by_department_sql := by
  simp only [match_known_sql] at h
  split at h
  · exact Or.inl (Option.some.inj h).symm
  · split at h
    · exact Or.inr (Option.some.inj h).symm
    · exact absurd h (by simp)

theorem generate_sql_known (oracle : Oracle) (q : Str) (memory : List Msg) (n : Nat)
    {t : Str} (h : match_known_sql q = some t) :
    generate_sql oracle q memory n = (t, n) := by
  unfold generate_sql
  rw [h]

theorem generate_sql_count (oracle : Oracle) (q : Str) (memory : List Msg) (n : Nat)
    (h1 : match_known_sql q = none) (h2 : is_count_question q = true)
    (h3 : has_filter_word q = false) :
    generate_sql oracle q memory n = (count_all_sql, n) := by
  unfold generate_sql
  rw [h1]
  simp [h2, h3]

theorem templates_valid :
    is_valid_sql_for_hr rate_by_department_sql = true ∧
    is_valid_sql_for_hr avg_income_by_department_sql = true ∧
    is_valid_sql_for_hr count_all_sql = true := by
  refine ⟨by decide, by decide, by decide⟩

theorem gen_guard_stage_calls (oracle : Oracle) (q : Str) (memory : List Msg) (n : Nat) :
    (gen_guard_stage oracle q memory n).2 = n + 1 ∨
    (gen_guard_stage oracle q memory n).2 = n + 2 := by
  simp only [gen_guard_stage]
  split
  · exact Or.inr rfl
  · exact Or.inl rfl

theorem generate_sql_calls_le (oracle : Oracle) (q : Str) (memory : List Msg) (n : Nat) :
    (generate_sql oracle q memory n).2 ≤ n + 3 := by
  simp only [generate_sql]
  split
  · omega
  · split
    · omega
    · have h := gen_guard_stage_calls oracle q memory n
      split
      · omega
      · omega

theorem run_sql_trace_safe (engine : Engine) {q x : Str}
    (hx : x ∈ (run_sql engine q).2) : is_safe_sql x = true := by
  unfold run_sql at hx
  split at hx
  · rename_i hs
    rcases List.mem_singleton.mp hx with rfl
    exact hs
  · exact absurd hx (List.not_mem_nil x)

theorem exceptCases_ok {α : Type} {r : Except Str Df} {d : Df} (h : r = Except.ok d)
    (fok : Df → α) (ferr : Str → α) : exceptCases r fok ferr = fok d := by
  rw [h]
  rfl

theorem exceptCases_error {α : Type} {r : Except Str Df} {e : Str} (h : r = Except.error e)
    (fok : Df → α) (ferr : Str → α) : exceptCases r fok ferr = ferr e := by
  rw [h]
  rfl

/-- Claim C10: run_sql raises its unsafe-SQL error without touching the
database exactly when is_safe_sql is false; is_safe_sql strips surrounding
whitespace then semicolons, requires a case-insensitive "select" start and
forbids the nine keywords as whole words anywhere in the text; a quoted
forbidden word is rejected and stray leading semicolons before SELECT are
accepted. -/
theorem C10_run_sql_safety_gate :
    (∀ (engine : Engine) (q : Str),
      run_sql engine q = (Except.error unsafeMsg, []) ↔ is_safe_sql q = false) ∧
    (∀ (engine : Engine) (q : Str), is_safe_sql q = true → run_sql engine q = (engine q, [q])) ∧
    (∀ q : Str, is_safe_sql q =
      ((strL ("select")).isPrefixOf (lowerS (stripSemiBoth (strip q))) &&
       !(FORBIDDEN_WORDS.any (fun w => containsWordCI w (stripSemiBoth (strip q)))))) ∧
    is_safe_sql (strL ("SELECT JobRole FROM employees WHERE JobRole = 'UPDATE'")) = false ∧
    is_safe_sql (strL (";;SELECT Age FROM employees")) = true := by
  refine ⟨?_, ?_, fun q => rfl, by decide, by decide⟩
  · intro engine q
    unfold run_sql
    cases hq : is_safe_sql q
    · simp
    · simp
  · intro engine q h
    unfold run_sql
    rw [if_pos h]

/-- Claim C10 witness: the safety characterization applied at the two concrete
statements of the claim. -/
theorem C10_witness :
    run_sql okEngine (strL ("SELECT JobRole FROM employees WHERE JobRole = 'UPDATE'")) =
      (Except.error unsafeMsg, []) ∧
    run_sql okEngine (strL (";;SELECT Age FROM employees")) =
      (okEngine (strL (";;SELECT Age FROM employees")), [strL (";;SELECT Age FROM employees")]) := by
  constructor
  · exact (C10_run_sql_safety_gate.1 okEngine _).mpr (by decide)
  · exact C10_run_sql_safety_gate.2.1 okEngine _ (by decide)

/-- Claim C7: given an absent or empty result table, the Answer Composer
returns the fixed no-matching-records message and makes zero generator
calls. -/
theorem C7_empty_result_fixed_message (oracle : Oracle) (n : Nat) (q sql : Str)
    (memory : List Msg) :
    answer_with_data oracle n q sql none memory = (no_records_msg, n) ∧
    answer_with_data oracle n q sql (some []) memory = (no_records_msg, n) :=
  ⟨rfl, rfl⟩

/-- Claim C6: a question matching a registered deterministic template yields
the pre-authored statement byte-for-byte with zero generator calls, for every
conversation memory; the rate template groups by Department and orders
descending by the computed percentage. -/
theorem C6_template_shortcut (oracle : Oracle) (q : Str) (memory : List Msg) (n : Nat)
    {t : Str} (h : match_known_sql q = some t) :
    generate_sql oracle q memory n = (t, n) ∧
    (∀ memory2 : List Msg, generate_sql oracle q memory2 n = (t, n)) ∧
    (t = rate_by_department_sql ∨ t = avg_income_by_department_sql) ∧
    match_known_sql (strL ("What is the attrition rate by department?")) =
      some rate_by_department_sql ∧
    containsSeq (strL ("GROUP BY Department")) rate_by_department_sql = true ∧
    containsSeq (strL ("ORDER BY AttritionRatePercent DESC")) rate_by_department_sql = true :=
  ⟨generate_sql_known oracle q memory n h,
   fun memory2 => generate_sql_known oracle q memory2 n h,
   match_known_sql_cases h, by decide, by decide, by decide⟩

/-- Claim C6 witness: scenario B at the concrete question, with two distinct
memories. -/
theorem C6_witness :
    generate_sql (constOracle []) (strL ("What is the attrition rate by department?")) [] 0 =
      (rate_by_department_sql, 0) ∧
    generate_sql (constOracle []) (strL ("What is the attrition rate by department?"))
      [(strL ("user"), strL ("hi"))] 0 = (rate_by_department_sql, 0) := by
  have h := C6_template_shortcut (constOracle [])
    (strL ("What is the attrition rate by department?")) [] 0
    (t := rate_by_department_sql) (by decide)
  exact ⟨h.1, h.2.1 [(strL ("user"), strL ("hi"))]⟩

/-- Claim C5 (amended): a count-intent question with no comparison qualifier
word AND no deterministic template match yields the fixed row-count statement
with zero generator calls. -/
theorem C5_count_shortcut (oracle : Oracle) (q : Str) (memory : List Msg) (n : Nat)
    (h1 : match_known_sql q = none) (h2 : is_count_question q = true)
    (h3 : has_filter_word q = false) :
    generate_sql oracle q memory n = (count_all_sql, n) ∧
    count_all_sql = strL ("SELECT COUNT(*) AS employee_count FROM employees;") :=
  ⟨generate_sql_count oracle q memory n h1 h2 h3, rfl⟩

/-- Claim C5 witness: scenario A at the concrete question. -/
theorem C5_witness :
    match_known_sql (strL ("How many employees are there?")) = none ∧
    is_count_question (strL ("How many employees are there?")) = true ∧
    has_filter_word (strL ("How many employees are there?")) = false ∧
    generate_sql (constOracle []) (strL ("How many employees are there?")) [] 0 =
      (strL ("SELECT COUNT(*) AS employee_count FROM employees;"), 0) := by
  have h := C5_count_shortcut (constOracle []) (strL ("How many employees are there?")) [] 0
    (by decide) (by decide) (by decide)
  exact ⟨by decide, by decide, by decide, h.1⟩

/-- Claim C5 counterexample: "count the attrition rate by department" contains
the count keyword "count" and no comparison qualifier, yet generate_sql
returns the attrition-rate template, not the fixed row-count statement:
the template matcher runs first. -/
theorem C5_counterexample :
    is_count_question (strL ("count the attrition rate by department")) = true ∧
    has_filter_word (strL ("count the attrition rate by department")) = false ∧
    generate_sql (constOracle []) (strL ("count the attrition rate by department")) [] 0 =
      (rate_by_department_sql, 0) ∧
    rate_by_department_sql ≠ count_all_sql := by
  refine ⟨by decide, by decide, ?_, by decide⟩
  exact generate_sql_known (constOracle []) _ [] 0 (by decide)

/-- Claim C3 counterexample: a statement comparing Attrition with the numeral 1
under mixed spacing (space only before the equals sign) passes validation. -/
theorem C3_counterexample :
    specAttritionNumCmp (strL ("SELECT Age FROM employees WHERE Attrition =1")) = true ∧
    is_valid_sql_for_hr (strL ("SELECT Age FROM employees WHERE Attrition =1")) = true := by
  exact ⟨by decide, by decide⟩

/-- Claim C4 counterexample: a corrected statement whose comparison is written
in lower case is detected by the repair guard but not rewritten (the textual
substitutions are case-sensitive), so the returned statement still compares
the categorical column against a numeral. -/
theorem C4_counterexample :
    contains_bad_attrition
      ((repair_sql (constOracle (strL ("select Age from employees where attrition = 1")))
        0 (strL ("q")) [] [] []).1) = true ∧
    specAttritionNumCmp
      ((repair_sql (constOracle (strL ("select Age from employees where attrition = 1")))
        0 (strL ("q")) [] [] []).1) = true := by
  exact ⟨by decide, by decide⟩

/-- Claim C9 counterexample: a count-form statement without a trailing
terminator is not returned untouched; ensure_limit appends a terminator. -/
theorem C9_counterexample :
    ensure_limit (strL ("SELECT COUNT(*) FROM employees")) 50 ≠
      strL ("SELECT COUNT(*) FROM employees") ∧
    ensure_limit (strL ("SELECT COUNT(*) FROM employees")) 50 =
      strL ("SELECT COUNT(*) FROM employees;") := by
  exact ⟨by decide, by decide⟩

/-- Claim C2 counterexample: with a generator whose first answer trips the
categorical guard and whose later answers are invalid, four generator calls
precede the first execution (the strict retry is followed by a second
validation gate and a further regeneration inside ask_hr_bot). -/
theorem C2_counterexample :
    ¬ ((pre_exec oracleC2 (strL ("q")) []).2 ≤ 3) := by decide

/-- Claim C1 counterexample: the statement passed to run_sql (and forwarded to
the engine) in this run compares the categorical Attrition column against a
numeral (mixed spacing), violating part (d) of the claimed invariant. -/
theorem C1_counterexample :
    (ask_hr_bot (constOracle (strL ("SELECT Age FROM employees WHERE Attrition =1"))) okEngine
      (strL ("q")) []).engineTrace = [mixed_attrition_sql] ∧
    specAttritionNumCmp mixed_attrition_sql = true := by
  exact ⟨by decide, by decide⟩

/-- Claim C2 (amended): generate_sql makes at most three generator calls and
returns the strict retry's output with no further gate of its own; ask_hr_bot
applies one more validation gate and at most one further call, so at most four
generator calls precede the first execution; template and count short-circuits
make it zero. -/
theorem C2_generator_call_bounds :
    (∀ (oracle : Oracle) (q : Str) (memory : List Msg) (n : Nat),
      (generate_sql oracle q memory n).2 ≤ n + 3) ∧
    (∀ (oracle : Oracle) (q : Str) (memory : List Msg),
      (pre_exec oracle q memory).2 ≤ 4) ∧
    (∀ (oracle : Oracle) (q : Str) (memory : List Msg) (n : Nat),
      match_known_sql q = none →
      (is_count_question q && !has_filter_word q) = false →
      is_valid_sql_for_hr (gen_guard_stage oracle q memory n).1 = false →
      generate_sql oracle q memory n =
        (ensure_limit (oracle (gen_guard_stage oracle q memory n).2
          (llm_sql_messages q memory retry_instruction)) 50,
         (gen_guard_stage oracle q memory n).2 + 1)) ∧
    (∀ (oracle : Oracle) (q : Str) (memory : List Msg) (t : Str),
      match_known_sql q = some t → pre_exec oracle q memory = (t, 0)) ∧
    (∀ (oracle : Oracle) (q : Str) (memory : List Msg),
      match_known_sql q = none → is_count_question q = true → has_filter_word q = false →
      pre_exec oracle q memory = (count_all_sql, 0)) := by
  refine ⟨generate_sql_calls_le, ?_, ?_, ?_, ?_⟩
  · intro oracle q memory
    simp only [pre_exec]
    have h := generate_sql_calls_le oracle q memory 0
    split
    · omega
    · omega
  · intro oracle q memory n h1 h2 h3
    unfold generate_sql
    rw [h1]
    simp only [h2, Bool.false_eq_true, if_false]
    rw [if_neg]
    simp [h3]
  · intro oracle q memory t h
    simp only [pre_exec]
    rw [generate_sql_known oracle q memory 0 h]
    rcases match_known_sql_cases h with rfl | rfl
    · rw [if_pos templates_valid.1]
    · rw [if_pos templates_valid.2.1]
  · intro oracle q memory h1 h2 h3
    simp only [pre_exec]
    rw [generate_sql_count oracle q memory 0 h1 h2 h3]
    rw [if_pos templates_valid.2.2]

/-- Claim C2 witness: the bounds applied at a run that exhausts them and at the
two zero-call short-circuits. -/
theorem C2_witness :
    (pre_exec oracleC2 (strL ("q")) []).2 ≤ 4 ∧
    pre_exec (constOracle []) (strL ("What is the attrition rate by department?")) [] =
      (rate_by_department_sql, 0) ∧
    pre_exec (constOracle []) (strL ("How many employees are there?")) [] =
      (count_all_sql, 0) := by
  refine ⟨C2_generator_call_bounds.2.1 oracleC2 (strL ("q")) [], ?_, ?_⟩
  · exact C2_generator_call_bounds.2.2.2.1 (constOracle [])
      (strL ("What is the attrition rate by department?")) [] rate_by_department_sql (by decide)
  · exact C2_generator_call_bounds.2.2.2.2 (constOracle [])
      (strL ("How many employees are there?")) [] (by decide) (by decide) (by decide)

/-- Claim C8: when the first execution raises, ask_hr_bot performs exactly one
repair attempt (one corrective generator call, one re-execution); a second
execution failure propagates to the caller as the terminal error for the
question, with no further retry, repair, or substituted answer. -/
theorem C8_single_repair (oracle : Oracle) (engine : Engine) (q : Str) (memory : List Msg)
    (e : Str)
    (h1 : (run_sql engine (pre_exec oracle q memory).1).1 = Except.error e) :
    (ask_hr_bot oracle engine q memory).execTrace =
      [(pre_exec oracle q memory).1,
       (repair_sql oracle (pre_exec oracle q memory).2 q (pre_exec oracle q memory).1 e memory).1] ∧
    (repair_sql oracle (pre_exec oracle q memory).2 q (pre_exec oracle q memory).1 e memory).2 =
      (pre_exec oracle q memory).2 + 1 ∧
    (∀ e2 : Str,
      (run_sql engine (repair_sql oracle (pre_exec oracle q memory).2 q
          (pre_exec oracle q memory).1 e memory).1).1 = Except.error e2 →
      (ask_hr_bot oracle engine q memory).result = Except.error e2 ∧
      (ask_hr_bot oracle engine q memory).genCalls = (pre_exec oracle q memory).2 + 1) := by
  rcases hr2 : (run_sql engine (repair_sql oracle (pre_exec oracle q memory).2 q
      (pre_exec oracle q memory).1 e memory).1).1 with e2 | df
  · have hbot : ask_hr_bot oracle engine q memory =
        ⟨Except.error e2,
         [(pre_exec oracle q memory).1,
          (repair_sql oracle (pre_exec oracle q memory).2 q (pre_exec oracle q memory).1 e memory).1],
         (run_sql engine (pre_exec oracle q memory).1).2 ++
           (run_sql engine (repair_sql oracle (pre_exec oracle q memory).2 q
             (pre_exec oracle q memory).1 e memory).1).2,
         (repair_sql oracle (pre_exec oracle q memory).2 q (pre_exec oracle q memory).1 e memory).2⟩ := by
      unfold ask_hr_bot exec_and_answer
      rw [exceptCases_error h1, exceptCases_error hr2]
    refine ⟨by rw [hbot], rfl, ?_⟩
    intro e2x h2
    have he : e2 = e2x := by injection h2
    subst he
    exact ⟨by rw [hbot], by rw [hbot]; rfl⟩
  · have hbot : ask_hr_bot oracle engine q memory =
        ⟨Except.ok ((answer_with_data oracle (repair_sql oracle (pre_exec oracle q memory).2 q
            (pre_exec oracle q memory).1 e memory).2 q
            (repair_sql oracle (pre_exec oracle q memory).2 q (pre_exec oracle q memory).1 e memory).1
            (some df) memory).1,
            (repair_sql oracle (pre_exec oracle q memory).2 q (pre_exec oracle q memory).1 e memory).1,
            df),
         [(pre_exec oracle q memory).1,
          (repair_sql oracle (pre_exec oracle q memory).2 q (pre_exec oracle q memory).1 e memory).1],
         (run_sql engine (pre_exec oracle q memory).1).2 ++
           (run_sql engine (repair_sql oracle (pre_exec oracle q memory).2 q
             (pre_exec oracle q memory).1 e memory).1).2,
         (answer_with_data oracle (repair_sql oracle (pre_exec oracle q memory).2 q
            (pre_exec oracle q memory).1 e memory).2 q
            (repair_sql oracle (pre_exec oracle q memory).2 q (pre_exec oracle q memory).1 e memory).1
            (some df) memory).2⟩ := by
      unfold ask_hr_bot exec_and_answer
      rw [exceptCases_error h1, exceptCases_ok hr2]
    refine ⟨by rw [hbot], rfl, ?_⟩
    intro e2 h2
    exact absurd h2 (by simp)

/-- Claim C8 witness: a run whose two executions both fail ends in the engine's
second error. -/
theorem C8_witness :
    (ask_hr_bot (constOracle (strL ("SELECT Age FROM employees"))) errEngine
      (strL ("q")) []).result = Except.error (strL ("db error")) ∧
    (ask_hr_bot (constOracle (strL ("SELECT Age FROM employees"))) errEngine
      (strL ("q")) []).execTrace.length = 2 := by
  have h := C8_single_repair (constOracle (strL ("SELECT Age FROM employees"))) errEngine
    (strL ("q")) [] (strL ("db error")) (by decide)
  refine ⟨(h.2.2 (strL ("db error")) (by decide)).1, ?_⟩
  rw [h.1]
  rfl

/-- Claim C1 (amended): every statement run_sql forwards to the database engine
during ask_hr_bot satisfies the safety gate: it starts case-insensitively with
the read-only keyword after stripping surrounding whitespace and semicolons,
and contains none of the nine mutating keywords as a whole word. -/
theorem C1_engine_boundary (oracle : Oracle) (engine : Engine) (q : Str) (memory : List Msg)
    (x : Str) (hx : x ∈ (ask_hr_bot oracle engine q memory).engineTrace) :
    is_safe_sql x = true ∧
    (strL ("select")).isPrefixOf (lowerS (stripSemiBoth (strip x))) = true ∧
    (FORBIDDEN_WORDS.any (fun w => containsWordCI w (stripSemiBoth (strip x)))) = false := by
  have hsafe : is_safe_sql x = true := by
    unfold ask_hr_bot exec_and_answer at hx
    rcases hr1 : (run_sql engine (pre_exec oracle q memory).1).1 with e | df
    · rw [exceptCases_error hr1] at hx
      rcases hr2 : (run_sql engine (repair_sql oracle (pre_exec oracle q memory).2 q
          (pre_exec oracle q memory).1 e memory).1).1 with e2 | df2
      · rw [exceptCases_error hr2] at hx
        rcases List.mem_append.mp hx with h | h
        · exact run_sql_trace_safe engine h
        · exact run_sql_trace_safe engine h
      · rw [exceptCases_ok hr2] at hx
        rcases List.mem_append.mp hx with h | h
        · exact run_sql_trace_safe engine h
        · exact run_sql_trace_safe engine h
    · simp only [exceptCases_ok hr1] at hx
      exact run_sql_trace_safe engine hx
  refine ⟨hsafe, ?_, ?_⟩
  · have h := hsafe
    unfold is_safe_sql at h
    simp only [Bool.and_eq_true] at h
    exact h.1
  · have h := hsafe
    unfold is_safe_sql at h
    simp only [Bool.and_eq_true, Bool.not_eq_true'] at h
    exact h.2

/-- Claim C1 witness: the safety facts at the concrete executed statement of a
concrete run. -/
theorem C1_witness : is_safe_sql mixed_attrition_sql = true := by
  exact (C1_engine_boundary (constOracle (strL ("SELECT Age FROM employees WHERE Attrition =1")))
    okEngine (strL ("q")) [] mixed_attrition_sql (by decide)).1

/-
Substring toolkit: containsSeq against List.IsInfix, and the decomposition of
an occurrence across an append.
-/

theorem infix_of_pre {p s : Str} (h : p <+: s) : p <:+: s :=
  List.IsPrefix.isInfix h

theorem infix_of_suf {p s : Str} (h : p <:+ s) : p <:+: s :=
  List.IsSuffix.isInfix h

theorem containsSeq_iff {p s : Str} : containsSeq p s = true ↔ p <:+: s := by
  induction s with
  | nil =>
    unfold containsSeq
    rw [List.isEmpty_iff, List.infix_nil]
  | cons c t ih =>
    unfold containsSeq
    rw [Bool.or_eq_true, List.isPrefixOf_iff_prefix, ih, List.infix_cons_iff]

theorem containsSeq_false_iff {p s : Str} : containsSeq p s = false ↔ ¬ p <:+: s := by
  rw [← containsSeq_iff]
  cases containsSeq p s
  · simp
  · simp

theorem contains_mono {p t s : Str} (hts : t <:+: s) (h : containsSeq p t = true) :
    containsSeq p s = true :=
  containsSeq_iff.mpr (List.IsInfix.trans (containsSeq_iff.mp h) hts)

theorem contains_append_left {p a b : Str} (h : containsSeq p a = true) :
    containsSeq p (a ++ b) = true :=
  contains_mono (infix_of_pre (List.prefix_append a b)) h

theorem contains_append_right {p a b : Str} (h : containsSeq p b = true) :
    containsSeq p (a ++ b) = true :=
  contains_mono (infix_of_suf (List.suffix_append a b)) h

theorem contains_map (f : Char → Char) {p s : Str} (h : containsSeq p s = true) :
    containsSeq (p.map f) (s.map f) = true :=
  containsSeq_iff.mpr (List.IsInfix.map f (containsSeq_iff.mp h))

theorem prefix_append_decomp {p a b : Str} (h : p <+: a ++ b) :
    p <+: a ∨ (a <+: p ∧ List.drop a.length p <+: b) := by
  by_cases hl : p.length ≤ a.length
  · exact Or.inl (List.prefix_of_prefix_length_le h (List.prefix_append a b) hl)
  · refine Or.inr ⟨List.prefix_of_prefix_length_le (List.prefix_append a b) h (by omega), ?_⟩
    obtain ⟨u, hu⟩ := List.prefix_of_prefix_length_le (List.prefix_append a b) h (by omega)
    obtain ⟨v, hv⟩ := h
    have hd : List.drop a.length p = u := by
      rw [← hu]
      exact List.drop_left a u
    rw [hd]
    have hba : a ++ u ++ v = a ++ b := by rw [hu, hv]
    rw [List.append_assoc] at hba
    exact ⟨v, (List.append_cancel_left hba)⟩

theorem infix_append_decomp {p a b : Str} (h : p <:+: a ++ b) :
    p <:+: a ∨ p <:+: b ∨
    ∃ i, 0 < i ∧ i < p.length ∧ List.take i p <:+ a ∧ List.drop i p <+: b := by
  obtain ⟨s, t, hst⟩ := h
  have hp : p <+: List.drop s.length (a ++ b) := by
    have : List.drop s.length (a ++ b) = p ++ t := by
      rw [← hst, List.append_assoc, List.drop_left]
    rw [this]
    exact List.prefix_append p t
  rw [List.drop_append_eq_append_drop] at hp
  by_cases hn : a.length ≤ s.length
  · have ha : List.drop s.length a = [] := List.drop_eq_nil_of_le hn
    rw [ha, List.nil_append] at hp
    exact Or.inr (Or.inl (List.IsInfix.trans (infix_of_pre hp)
      (infix_of_suf (List.drop_suffix _ b))))
  · have hb0 : s.length - a.length = 0 := by omega
    rw [hb0, List.drop_zero] at hp
    rcases prefix_append_decomp hp with hcase | ⟨h1, h2⟩
    · exact Or.inl (List.IsInfix.trans (infix_of_pre hcase) (infix_of_suf (List.drop_suffix _ a)))
    · set a1 := List.drop s.length a with ha1
      by_cases hip : a1.length < p.length
      · refine Or.inr (Or.inr ⟨a1.length, ?_, hip, ?_, h2⟩)
        · have : a1.length = a.length - s.length := by
            rw [ha1, List.length_drop]
          omega
        · have htk : List.take a1.length p = a1 := by
            have := List.prefix_iff_eq_take.mp h1
            exact this.symm
          rw [htk]
          exact List.drop_suffix _ a
      · have hpa : p = a1 := by
          have hle := List.IsPrefix.length_le h1
          have : p.length = a1.length := by omega
          exact (List.IsPrefix.eq_of_length h1 (by omega)).symm
        rw [hpa]
        exact Or.inl (infix_of_suf (List.drop_suffix _ a))

/-- Blocking an occurrence across an append: when no occurrence lies inside
either part and no nonempty proper suffix of the pattern starts `b`, there is
no occurrence in the concatenation. -/
theorem not_contains_append {p a b : Str}
    (ha : containsSeq p a = false) (hb : containsSeq p b = false)
    (hcross : ∀ i, i < p.length → 0 < i → ¬ (List.drop i p <+: b)) :
    containsSeq p (a ++ b) = false := by
  rw [containsSeq_false_iff]
  intro hinf
  rcases infix_append_decomp hinf with h | h | ⟨i, hi0, hil, _, hdrop⟩
  · exact (containsSeq_false_iff.mp ha) h
  · exact (containsSeq_false_iff.mp hb) h
  · exact hcross i hil hi0 hdrop

/-
ASCII character lemmas for the lower-casing map.
-/

theorem char_toNat_inj {c d : Char} (h : c.toNat = d.toNat) : c = d := by
  have hc := Char.ofNat_toNat c
  have hd := Char.ofNat_toNat d
  rw [← hc, ← hd, h]

theorem lowerChar_toNat_upper {c : Char} (h : 65 ≤ c.toNat ∧ c.toNat ≤ 90) :
    (lowerChar c).toNat = c.toNat + 32 := by
  unfold lowerChar
  rw [dif_pos h]
  rfl

theorem lowerChar_eq_self {c : Char} (h : ¬(65 ≤ c.toNat ∧ c.toNat ≤ 90)) :
    lowerChar c = c := by
  unfold lowerChar
  rw [dif_neg h]

theorem isSpaceC_iff {c : Char} : isSpaceC c = true ↔
    (c.toNat = 32 ∨ c.toNat = 9 ∨ c.toNat = 10 ∨ c.toNat = 13 ∨ c.toNat = 11 ∨ c.toNat = 12) := by
  unfold isSpaceC
  simp [Bool.or_eq_true, beq_iff_eq]
  tauto

theorem isSpaceC_lowerChar (c : Char) : isSpaceC (lowerChar c) = isSpaceC c := by
  by_cases h : 65 ≤ c.toNat ∧ c.toNat ≤ 90
  · have h1 : isSpaceC (lowerChar c) = false := by
      rw [← Bool.not_eq_true]
      intro hs
      have := isSpaceC_iff.mp hs
      rw [lowerChar_toNat_upper h] at this
      omega
    have h2 : isSpaceC c = false := by
      rw [← Bool.not_eq_true]
      intro hs
      have := isSpaceC_iff.mp hs
      omega
    rw [h1, h2]
  · rw [lowerChar_eq_self h]

theorem lowerChar_idem (c : Char) : lowerChar (lowerChar c) = lowerChar c := by
  by_cases h : 65 ≤ c.toNat ∧ c.toNat ≤ 90
  · apply lowerChar_eq_self
    rw [lowerChar_toNat_upper h]
    omega
  · rw [lowerChar_eq_self h, lowerChar_eq_self h]

theorem lowerS_idem (s : Str) : lowerS (lowerS s) = lowerS s := by
  unfold lowerS
  rw [List.map_map]
  exact List.map_congr_left (fun c _ => lowerChar_idem c)

theorem lowerChar_semi (c : Char) : (lowerChar c = ';') ↔ (c = ';') := by
  by_cases h : 65 ≤ c.toNat ∧ c.toNat ≤ 90
  · constructor
    · intro hc
      have : (lowerChar c).toNat = 59 := by rw [hc]; rfl
      rw [lowerChar_toNat_upper h] at this
      omega
    · intro hc
      rw [hc] at h
      exact absurd h (by decide)
  · rw [lowerChar_eq_self h]

/-
Fixpoint lemmas: on sanitizer-normal statements each normalize/extract stage
is the identity.
-/

theorem contains_tail_false {p : Str} {c : Char} {t : Str}
    (h : containsSeq p (c :: t) = false) : containsSeq p t = false := by
  unfold containsSeq at h
  rcases Bool.or_eq_false_iff.mp h with ⟨_, h2⟩
  exact h2

theorem cleanSQL_spec {s : Str} (h : cleanSQL s = true) :
    s ≠ [] ∧ s ≠ [';'] ∧ noFence s = true ∧ wsOK s = true ∧ noDbl s = true ∧
    headNotSp s = true ∧ lastNotSp s = true ∧ noOnlyWord s = true ∧ semiShape s = true ∧
    selShape s = true := by
  unfold cleanSQL at h
  simp only [Bool.and_eq_true, Bool.not_eq_true', beq_eq_false_iff_ne, ne_eq] at h
  obtain ⟨⟨⟨⟨⟨⟨⟨⟨⟨h1, h2⟩, h3⟩, h4⟩, h5⟩, h6⟩, h7⟩, h8⟩, h9⟩, h10⟩ := h
  refine ⟨?_, h2, h3, h4, h5, h6, h7, h8, h9, h10⟩
  intro hs
  rw [hs] at h1
  exact absurd h1 (by decide)

theorem replaceGo_no_occ {p r : Str} (hp : p ≠ []) :
    ∀ (n : Nat) (s : Str), containsSeq p s = false → replaceGo p r n s = s := by
  intro n
  induction n with
  | zero =>
    intro s _
    cases s
    · rfl
    · rfl
  | succ n ih =>
    intro s hs
    cases s with
    | nil => rfl
    | cons c t =>
      unfold containsSeq at hs
      rcases Bool.or_eq_false_iff.mp hs with ⟨h1, h2⟩
      unfold replaceGo
      rw [if_neg (by rw [h1]; exact Bool.false_ne_true)]
      rw [ih t h2]

theorem replaceAll_no_occ {p r s : Str} (h : containsSeq p s = false) :
    replaceAll p r s = s := by
  unfold replaceAll
  split
  · rfl
  · rename_i hne
    exact replaceGo_no_occ (by simpa [List.isEmpty_iff] using hne) s.length s h

theorem noFence_fences {s : Str} (h : noFence s = true) :
    containsSeq (strL ("```sql")) s = false ∧ containsSeq (strL ("```")) s = false := by
  unfold noFence at h
  rw [Bool.not_eq_true'] at h
  have h3 : containsSeq (strL ("```")) s = false := by
    rw [containsSeq_false_iff]
    intro hin
    have := contains_map lowerChar (containsSeq_iff.mpr hin)
    rw [containsSeq_false_iff] at h
    exact h (by simpa using containsSeq_iff.mp this)
  refine ⟨?_, h3⟩
  rw [containsSeq_false_iff]
  intro hin
  have : (strL ("```")) <:+: s :=
    List.IsInfix.trans (infix_of_pre (by decide)) hin
  exact (containsSeq_false_iff.mp h3) this

theorem stripL_eq_self {s : Str} (h : headNotSp s = true) : stripL s = s := by
  unfold stripL
  cases s with
  | nil => rfl
  | cons c t =>
    unfold headNotSp at h
    rw [Bool.not_eq_true'] at h
    rw [List.dropWhile_cons, if_neg (by rw [h]; exact Bool.false_ne_true)]

theorem stripR_eq_self {s : Str} (h : lastNotSp s = true) : stripR s = s := by
  unfold stripR
  unfold lastNotSp at h
  rw [show s.reverse.dropWhile isSpaceC = s.reverse from stripL_eq_self h]
  exact List.reverse_reverse s

theorem strip_eq_self {s : Str} (h1 : headNotSp s = true) (h2 : lastNotSp s = true) :
    strip s = s := by
  unfold strip
  rw [stripL_eq_self h1, stripR_eq_self h2]

theorem wsOK_tail {c : Char} {t : Str} (h : wsOK (c :: t) = true) : wsOK t = true := by
  unfold wsOK at h ⊢
  rw [List.all_cons, Bool.and_eq_true] at h
  exact h.2

theorem wsOK_head {c : Char} {t : Str} (h : wsOK (c :: t) = true) (hs : isSpaceC c = true) :
    c = ' ' := by
  unfold wsOK at h
  rw [List.all_cons, Bool.and_eq_true] at h
  have h1 := h.1
  simp only [Bool.or_eq_true] at h1
  rcases h1 with h1 | h1
  · rw [hs] at h1
    exact absurd h1 (by decide)
  · exact beq_iff_eq.mp h1

theorem noDbl_tail {c : Char} {t : Str} (h : noDbl (c :: t) = true) : noDbl t = true := by
  cases t with
  | nil => rfl
  | cons d t2 =>
    unfold noDbl at h
    rw [Bool.and_eq_true] at h
    exact h.2

theorem collapseGo_cons_space {c : Char} {t : Str} (hc : isSpaceC c = true) :
    collapseGo false (c :: t) = ' ' :: collapseGo true t := by
  conv_lhs => unfold collapseGo
  rw [if_pos hc]
  rfl

theorem collapseGo_cons_nonspace (prev : Bool) {c : Char} {t : Str} (hc : isSpaceC c = false) :
    collapseGo prev (c :: t) = c :: collapseGo false t := by
  conv_lhs => unfold collapseGo
  rw [if_neg (by rw [hc]; exact Bool.false_ne_true)]

theorem collapseGo_eq_self {s : Str} (hws : wsOK s = true) (hdb : noDbl s = true) :
    collapseGo false s = s := by
  induction s with
  | nil => rfl
  | cons c t ih =>
    cases hc : isSpaceC c with
    | false =>
      rw [collapseGo_cons_nonspace false hc]
      rw [ih (wsOK_tail hws) (noDbl_tail hdb)]
    | true =>
      have hcsp : c = ' ' := wsOK_head hws hc
      rw [collapseGo_cons_space hc]
      cases t with
      | nil =>
        rw [hcsp]
        rfl
      | cons d t2 =>
        have hd : isSpaceC d = false := by
          unfold noDbl at hdb
          rw [Bool.and_eq_true] at hdb
          have h1 := hdb.1
          rw [hc] at h1
          cases hdd : isSpaceC d
          · rfl
          · rw [hdd] at h1
            exact absurd h1 (by decide)
        have hrec := ih (wsOK_tail hws) (noDbl_tail hdb)
        rw [collapseGo_cons_nonspace false hd] at hrec
        have ht2 : collapseGo false t2 = t2 := by
          exact List.cons.inj hrec |>.2
        rw [collapseGo_cons_nonspace true hd, ht2, hcsp]

theorem collapseWS_eq_self {s : Str} (hws : wsOK s = true) (hdb : noDbl s = true) :
    collapseWS s = s := collapseGo_eq_self hws hdb

theorem noOnly_tail {c : Char} {t : Str} (h : noOnlyWord (c :: t) = true) :
    noOnlyWord t = true := by
  unfold noOnlyWord at h ⊢
  rw [Bool.not_eq_true'] at h ⊢
  unfold lowerS at h
  rw [List.map_cons] at h
  exact contains_tail_false h

theorem removeOnlyGo_eq_self {s : Str} (h : noOnlyWord s = true) :
    ∀ prevW, removeOnlyGo prevW s = s := by
  induction s with
  | nil =>
    intro prev
    rfl
  | cons c t ih =>
    intro prev
    have hT := noOnly_tail (c := c) (t := t) h
    rcases t with _ | ⟨c2, t2⟩
    · rfl
    rcases t2 with _ | ⟨c3, t3⟩
    · unfold removeOnlyGo
      rw [ih hT]
    rcases t3 with _ | ⟨c4, t4⟩
    · unfold removeOnlyGo
      rw [ih hT]
    have honly : onlyAt prev c c2 c3 c4 t4 = false := by
      cases ho : onlyAt prev c c2 c3 c4 t4
      · rfl
      · exfalso
        unfold onlyAt at ho
        simp only [Bool.and_eq_true, beq_iff_eq] at ho
        obtain ⟨⟨⟨⟨⟨h1, h2⟩, h3⟩, h4⟩, _⟩, _⟩ := ho
        have hmap : lowerS (c :: c2 :: c3 :: c4 :: t4) =
            'o' :: 'n' :: 'l' :: 'y' :: lowerS t4 := by
          unfold lowerS
          simp only [List.map_cons]
          rw [h1, h2, h3, h4]
        have hcon : containsSeq (strL ("only")) (lowerS (c :: c2 :: c3 :: c4 :: t4)) = true := by
          rw [hmap]
          exact containsSeq_iff.mpr (infix_of_pre ⟨lowerS t4, rfl⟩)
        unfold noOnlyWord at h
        rw [Bool.not_eq_true'] at h
        rw [h] at hcon
        exact absurd hcon (by decide)
    unfold removeOnlyGo
    rw [if_neg (by rw [honly]; exact Bool.false_ne_true)]
    rw [ih hT]

theorem removeOnly_eq_self {s : Str} (h : noOnlyWord s = true) : removeOnly s = s :=
  removeOnlyGo_eq_self h false

theorem sliceSelGo_none {s : Str} (h : containsSeq (strL ("select")) (lowerS s) = false) :
    sliceSelGo s = none := by
  induction s with
  | nil => rfl
  | cons c t ih =>
    unfold lowerS at h
    rw [List.map_cons] at h
    unfold containsSeq at h
    rcases Bool.or_eq_false_iff.mp h with ⟨h1, h2⟩
    unfold sliceSelGo
    rw [if_neg ?_]
    · exact ih h2
    · show ¬ ((strL ("select")).isPrefixOf (lowerS (c :: t)) = true)
      unfold lowerS
      rw [List.map_cons, h1]
      exact Bool.false_ne_true

theorem sliceSel_eq_self {s : Str} (h : selShape s = true) : sliceSel s = s := by
  unfold selShape at h
  simp only [Bool.or_eq_true] at h
  rcases h with h1 | h1
  · cases s with
    | nil => rfl
    | cons c t =>
      unfold sliceSel sliceSelGo
      rw [if_pos h1]
  · unfold sliceSel
    rw [Bool.not_eq_true'] at h1
    rw [sliceSelGo_none h1]

theorem semiShape_cases {s : Str} (hsemi : semiShape s = true) (hne : s ≠ [';']) :
    (s.any (fun c => c == ';') = false) ∨
    (∃ t, s = t ++ [';'] ∧ t ≠ [] ∧ (';' ∈ t → False) ∧ lastNotSp t = true) := by
  unfold semiShape at hsemi
  rw [Bool.and_eq_true] at hsemi
  obtain ⟨hdl, hrev⟩ := hsemi
  cases hany : s.any (fun c => c == ';') with
  | false => exact Or.inl rfl
  | true =>
    obtain ⟨x, hxmem, hxeq⟩ := List.any_eq_true.mp hany
    have hx : x = ';' := beq_iff_eq.mp hxeq
    subst hx
    have hsne : s ≠ [] := by
      intro hs
      rw [hs] at hxmem
      exact absurd hxmem (List.not_mem_nil _)
    have hdl2 : (';' ∈ s.dropLast) → False := by
      intro hmem
      rw [Bool.not_eq_true'] at hdl
      have : s.dropLast.any (fun c => c == ';') = true :=
        List.any_eq_true.mpr ⟨';', hmem, by decide⟩
      rw [this] at hdl
      exact absurd hdl (by decide)
    have hlast : s.getLast hsne = ';' := by
      by_contra hlne
      have := List.dropLast_append_getLast hsne
      rw [← this] at hxmem
      rcases List.mem_append.mp hxmem with hm | hm
      · exact hdl2 hm
      · exact hlne (List.mem_singleton.mp hm).symm
    refine Or.inr ⟨s.dropLast, ?_, ?_, hdl2, ?_⟩
    · rw [← hlast]
      exact (List.dropLast_append_getLast hsne).symm
    · intro hds
      apply hne
      have := List.dropLast_append_getLast hsne
      rw [hds, hlast] at this
      rw [← this]
      rfl
    · have hsrev : s.reverse = ';' :: s.dropLast.reverse := by
        conv_lhs => rw [← List.dropLast_append_getLast hsne]
        rw [hlast, List.reverse_append]
        rfl
      unfold lastNotSp
      rw [hsrev] at hrev
      cases hdrev : s.dropLast.reverse with
      | nil => rfl
      | cons d rest =>
        rw [hdrev] at hrev
        rw [Bool.not_eq_true'] at hrev
        rw [Bool.and_eq_false_iff] at hrev
        rcases hrev with h1 | h1
        · exact absurd h1 (by decide)
        · show (!isSpaceC d) = true
          rw [h1]
          rfl

theorem takeWhile_no_semi {t : Str} (h : (';' ∈ t) → False) :
    List.takeWhile (fun c => c != ';') (t ++ [';']) = t := by
  rw [List.takeWhile_append]
  have ht : List.takeWhile (fun c => c != ';') t = t := by
    rw [List.takeWhile_eq_self_iff]
    intro x hx
    cases hxe : x == ';'
    · simp [bne, hxe]
    · exact absurd (beq_iff_eq.mp hxe ▸ hx) (fun hm => h hm)
  rw [ht]
  rw [if_pos rfl]
  simp [List.takeWhile]

theorem normalize_eq_self {s : Str} (h : cleanSQL s = true) : normalize_sql s = s := by
  obtain ⟨_, _, hf, hws, hdb, hh, hl, _, _, _⟩ := cleanSQL_spec h
  obtain ⟨hf1, hf2⟩ := noFence_fences hf
  simp only [normalize_sql]
  rw [replaceAll_no_occ hf1, replaceAll_no_occ hf2, strip_eq_self hh hl,
    collapseWS_eq_self hws hdb, strip_eq_self hh hl]

theorem extract_eq_self {s : Str} (h : cleanSQL s = true) : extract_first_select s = s := by
  obtain ⟨hne, hne2, _, _, _, hh, hl, ho, hsemi, hsel⟩ := cleanSQL_spec h
  simp only [extract_first_select]
  rw [normalize_eq_self h]
  rw [removeOnly_eq_self ho, strip_eq_self hh hl]
  rcases semiShape_cases hsemi hne2 with hno | ⟨t, hts, htne, htsem, htlast⟩
  · rw [if_neg (by rw [hno]; exact Bool.false_ne_true)]
    rw [sliceSel_eq_self hsel, strip_eq_self hh hl]
  · have hany : s.any (fun c => c == ';') = true := by
      rw [hts]
      exact List.any_eq_true.mpr ⟨';', by simp, by decide⟩
    rw [if_pos hany]
    have hth : headNotSp t = true := by
      cases t with
      | nil => exact absurd rfl htne
      | cons c t2 =>
        rw [hts] at hh
        exact hh
    have htw : List.takeWhile (fun c => c != ';') s = t := by
      rw [hts]
      exact takeWhile_no_semi htsem
    rw [htw, strip_eq_self hth htlast, ← hts]
    rw [sliceSel_eq_self hsel, strip_eq_self hh hl]

/-
Lower-casing preserves sanitizer-normal form.
-/

theorem lowerChar_eq_low {c x : Char}
    (hx : x.toNat < 65 ∨ (90 < x.toNat ∧ x.toNat < 97) ∨ 122 < x.toNat) :
    (lowerChar c = x) ↔ (c = x) := by
  by_cases h : 65 ≤ c.toNat ∧ c.toNat ≤ 90
  · constructor
    · intro hc
      have h1 : (lowerChar c).toNat = x.toNat := by rw [hc]
      rw [lowerChar_toNat_upper h] at h1
      omega
    · intro hc
      subst hc
      exfalso
      omega
  · rw [lowerChar_eq_self h]

theorem headNotSp_lower {s : Str} (h : headNotSp s = true) : headNotSp (lowerS s) = true := by
  cases s with
  | nil => rfl
  | cons c t =>
    show (!isSpaceC (lowerChar c)) = true
    rw [isSpaceC_lowerChar]
    exact h

theorem noDbl_lower {s : Str} (h : noDbl s = true) : noDbl (lowerS s) = true := by
  induction s with
  | nil => rfl
  | cons c t ih =>
    cases t with
    | nil => rfl
    | cons d t2 =>
      show noDbl (lowerChar c :: lowerChar d :: lowerS t2) = true
      unfold noDbl at h ⊢
      rw [Bool.and_eq_true] at h ⊢
      refine ⟨?_, ?_⟩
      · rw [isSpaceC_lowerChar, isSpaceC_lowerChar]
        exact h.1
      · exact ih h.2

theorem wsOK_lower {s : Str} (h : wsOK s = true) : wsOK (lowerS s) = true := by
  unfold wsOK at h ⊢
  rw [List.all_eq_true] at h ⊢
  intro x hx
  rcases List.mem_map.mp hx with ⟨c, hcm, rfl⟩
  have hc := h c hcm
  simp only [Bool.or_eq_true, Bool.not_eq_true', beq_iff_eq] at hc ⊢
  rcases hc with hc | hc
  · exact Or.inl (by rw [isSpaceC_lowerChar]; exact hc)
  · subst hc
    exact Or.inr rfl

theorem cleanSQL_lower {s : Str} (h : cleanSQL s = true) : cleanSQL (lowerS s) = true := by
  obtain ⟨hne, hne2, hf, hws, hdb, hh, hl, ho, hsemi, hsel⟩ := cleanSQL_spec h
  unfold cleanSQL
  simp only [Bool.and_eq_true]
  refine ⟨⟨⟨⟨⟨⟨⟨⟨⟨?_, ?_⟩, ?_⟩, ?_⟩, ?_⟩, ?_⟩, ?_⟩, ?_⟩, ?_⟩, ?_⟩
  · rw [Bool.not_eq_true', List.isEmpty_eq_false_iff_exists_mem]
    cases s with
    | nil => exact absurd rfl hne
    | cons c t => exact ⟨lowerChar c, by simp [lowerS]⟩
  · rw [Bool.not_eq_true', beq_eq_false_iff_ne]
    intro hls
    cases s with
    | nil => exact hne rfl
    | cons c t =>
      unfold lowerS at hls
      rw [List.map_cons] at hls
      have hc := List.cons.inj hls
      cases t with
      | nil =>
        apply hne2
        rw [(lowerChar_eq_low (x := ';') (by decide)).mp hc.1]
      | cons d t2 =>
        rw [List.map_cons] at hc
        exact absurd hc.2 (by simp)
  · unfold noFence
    rw [lowerS_idem]
    exact hf
  · exact wsOK_lower hws
  · exact noDbl_lower hdb
  · exact headNotSp_lower hh
  · unfold lastNotSp
    have : (lowerS s).reverse = lowerS s.reverse := by
      unfold lowerS
      rw [List.map_reverse]
    rw [this]
    exact headNotSp_lower hl
  · unfold noOnlyWord
    rw [lowerS_idem]
    exact ho
  · unfold semiShape at hsemi ⊢
    rw [Bool.and_eq_true] at hsemi ⊢
    obtain ⟨h1, h2⟩ := hsemi
    refine ⟨?_, ?_⟩
    · rw [Bool.not_eq_true'] at h1 ⊢
      have hdl : (lowerS s).dropLast = lowerS s.dropLast := by
        unfold lowerS
        rw [List.map_dropLast]
      rw [hdl]
      unfold lowerS
      rw [List.any_map]
      rw [← Bool.not_eq_true]
      intro hanyl
      obtain ⟨c, hcm, hce⟩ := List.any_eq_true.mp hanyl
      have : c = ';' := by
        have := beq_iff_eq.mp hce
        exact (lowerChar_eq_low (x := ';') (by decide)).mp this
      subst this
      have : s.dropLast.any (fun c => c == ';') = true :=
        List.any_eq_true.mpr ⟨';', hcm, by decide⟩
      rw [this] at h1
      exact absurd h1 (by decide)
    · have hrev : (lowerS s).reverse = lowerS s.reverse := by
        unfold lowerS
        rw [List.map_reverse]
      rw [hrev]
      cases hsr : s.reverse with
      | nil => rfl
      | cons c t =>
        cases t with
        | nil => rfl
        | cons d t2 =>
          rw [hsr] at h2
          show (!(lowerChar c == ';' && isSpaceC (lowerChar d))) = true
          rw [isSpaceC_lowerChar]
          rw [Bool.not_eq_true'] at h2 ⊢
          rw [Bool.and_eq_false_iff] at h2 ⊢
          rcases h2 with h2 | h2

          · left
            rw [beq_eq_false_iff_ne] at h2 ⊢
            intro hcl
            exact h2 ((lowerChar_eq_low (x := ';') (by decide)).mp hcl)
          · exact Or.inr h2
  · unfold selShape
    rw [lowerS_idem]
    exact hsel

/-- Claim C3 (amended): for a statement in sanitizer-normal form, any of the
four detected categorical-as-numeral forms -- fully spaced or fully unspaced
equality of Attrition against 0 or 1, in any letter case -- makes
is_valid_sql_for_hr return false.  Mixed spacing (a space on one side only) is
not detected (see the counterexample). -/
theorem C3_detected_forms_invalid (s : Str) (hclean : cleanSQL s = true)
    (hbad : (containsSeq (strL ("attrition = 1")) (lowerS s) ||
             containsSeq (strL ("attrition=1")) (lowerS s) ||
             containsSeq (strL ("attrition = 0")) (lowerS s) ||
             containsSeq (strL ("attrition=0")) (lowerS s)) = true) :
    is_valid_sql_for_hr s = false := by
  have hbad2 : contains_bad_attrition (lowerS s) = true := by
    unfold contains_bad_attrition
    rw [extract_eq_self (cleanSQL_lower hclean), lowerS_idem]
    exact hbad
  simp only [is_valid_sql_for_hr]
  rw [extract_eq_self hclean, hbad2]
  simp

/-- Claim C3 witness: the detected fully-spaced lower-case form is rejected. -/
theorem C3_witness :
    cleanSQL (strL ("select x from employees where Attrition = 1")) = true ∧
    is_valid_sql_for_hr (strL ("select x from employees where Attrition = 1")) = false :=
  ⟨by decide, C3_detected_forms_invalid _ (by decide) (by decide)⟩

/-
Trailing-semicolon stripping and preservation of normal form under the
appends ensure_limit performs.
-/

theorem getLast?_ne_semi {s : Str} (h : (';' ∈ s) → False) : s.getLast? ≠ some ';' := by
  intro hg
  rw [List.getLast?_eq_head?_reverse] at hg
  cases hrev : s.reverse with
  | nil =>
    rw [hrev] at hg
    exact absurd hg (by simp)
  | cons c t =>
    rw [hrev] at hg
    have hc : c = ';' := by
      have : some c = some ';' := hg
      injection this
    apply h
    rw [← List.mem_reverse, hrev, hc]
    exact List.mem_cons_self _ _

theorem dropWhile_semi_reverse {u : Str} (h : u.getLast? ≠ some ';') :
    List.dropWhile (fun c => c == ';') u.reverse = u.reverse := by
  cases hrev : u.reverse with
  | nil => rfl
  | cons c t =>
    have hc : (c == ';') = false := by
      cases hcc : c == ';'
      · rfl
      · exfalso
        apply h
        rw [List.getLast?_eq_head?_reverse, hrev]
        rw [beq_iff_eq.mp hcc]
        rfl
    rw [List.dropWhile_cons, if_neg (by rw [hc]; exact Bool.false_ne_true)]

theorem rstripSemi_eq_self2 {s : Str} (h : s.getLast? ≠ some ';') : rstripSemi s = s := by
  unfold rstripSemi
  rw [dropWhile_semi_reverse h, List.reverse_reverse]

theorem rstripSemi_snoc {u : Str} (h : u.getLast? ≠ some ';') :
    rstripSemi (u ++ [';']) = u := by
  unfold rstripSemi
  rw [List.reverse_append]
  show (List.dropWhile (fun c => c == ';') (';' :: u.reverse)).reverse = u
  rw [List.dropWhile_cons, if_pos (by decide)]
  rw [dropWhile_semi_reverse h, List.reverse_reverse]

theorem contains_false_mono {p t s : Str} (hts : t <:+: s) (h : containsSeq p s = false) :
    containsSeq p t = false := by
  cases hc : containsSeq p t with
  | false => rfl
  | true =>
    rw [contains_mono hts hc] at h
    exact absurd h (by decide)

theorem noFence_of_pre {t s : Str} (hts : t <+: s) (h : noFence s = true) :
    noFence t = true := by
  unfold noFence at h ⊢
  rw [Bool.not_eq_true'] at h ⊢
  exact contains_false_mono (infix_of_pre (List.IsPrefix.map lowerChar hts)) h

theorem noOnly_of_pre {t s : Str} (hts : t <+: s) (h : noOnlyWord s = true) :
    noOnlyWord t = true := by
  unfold noOnlyWord at h ⊢
  rw [Bool.not_eq_true'] at h ⊢
  exact contains_false_mono (infix_of_pre (List.IsPrefix.map lowerChar hts)) h

theorem wsOK_of_pre {t s : Str} (hts : t <+: s) (h : wsOK s = true) : wsOK t = true := by
  unfold wsOK at h ⊢
  rw [List.all_eq_true] at h ⊢
  intro x hx
  exact h x (List.IsPrefix.subset hts hx)

theorem noDbl_append_left {b : Str} : ∀ {a : Str}, noDbl (a ++ b) = true → noDbl a = true := by
  intro a
  induction a with
  | nil => intro _; rfl
  | cons c t ih =>
    intro h
    cases t with
    | nil => rfl
    | cons d t2 =>
      have h2 : (!(isSpaceC c && isSpaceC d) && noDbl (d :: (t2 ++ b))) = true := h
      rw [Bool.and_eq_true] at h2
      show (!(isSpaceC c && isSpaceC d) && noDbl (d :: t2)) = true
      rw [Bool.and_eq_true]
      exact ⟨h2.1, ih h2.2⟩

theorem lastNotSp_cons {c d : Char} {t : Str} :
    lastNotSp (c :: d :: t) = lastNotSp (d :: t) := by
  unfold lastNotSp
  rw [show (c :: d :: t).reverse = (d :: t).reverse ++ [c] from by simp]
  cases hrev : (d :: t).reverse with
  | nil => exact absurd hrev (by simp)
  | cons e r => rfl

theorem noDbl_append : ∀ {a : Str}, noDbl a = true → ∀ {b : Str}, noDbl b = true →
    lastNotSp a = true → noDbl (a ++ b) = true := by
  intro a
  induction a with
  | nil =>
    intro _ b hb _
    exact hb
  | cons c t ih =>
    intro ha b hb hlast
    cases t with
    | nil =>
      cases b with
      | nil => rfl
      | cons d b2 =>
        show noDbl (c :: d :: b2) = true
        unfold noDbl
        rw [Bool.and_eq_true]
        refine ⟨?_, hb⟩
        unfold lastNotSp at hlast
        have : (!isSpaceC c) = true := hlast
        rw [Bool.not_eq_true'] at this
        rw [this]
        rfl
    | cons d t2 =>
      show noDbl (c :: ((d :: t2) ++ b)) = true
      unfold noDbl at ha
      rw [Bool.and_eq_true] at ha
      rw [lastNotSp_cons] at hlast
      have hrest := ih ha.2 hb hlast
      show noDbl (c :: d :: (t2 ++ b)) = true
      unfold noDbl
      rw [Bool.and_eq_true]
      exact ⟨ha.1, hrest⟩

theorem headNotSp_append {a b : Str} (ha : headNotSp a = true) (hb : headNotSp b = true) :
    headNotSp (a ++ b) = true := by
  cases a with
  | nil => exact hb
  | cons c t => exact ha

theorem lastNotSp_append {a b : Str} (hb : lastNotSp b = true) (hbne : b ≠ []) :
    lastNotSp (a ++ b) = true := by
  unfold lastNotSp at hb ⊢
  rw [List.reverse_append]
  cases hrev : b.reverse with
  | nil =>
    exact absurd (by simpa using hrev) hbne
  | cons c t =>
    rw [hrev] at hb
    show headNotSp (c :: (t ++ a.reverse)) = true
    exact hb

theorem selShape_append {a b : Str} (hsel : selShape a = true)
    (hb : containsSeq (strL ("select")) (lowerS b) = false)
    (hcross : ∀ i, i < (strL ("select")).length → 0 < i →
      ¬ (List.drop i (strL ("select")) <+: lowerS b)) :
    selShape (a ++ b) = true := by
  unfold selShape at hsel ⊢
  simp only [Bool.or_eq_true] at hsel ⊢
  have hmap : lowerS (a ++ b) = lowerS a ++ lowerS b := List.map_append lowerChar a b
  rcases hsel with h1 | h1
  · left
    rw [hmap]
    rw [List.isPrefixOf_iff_prefix] at h1 ⊢
    exact List.IsPrefix.trans h1 (List.prefix_append _ _)
  · right
    rw [hmap]
    rw [Bool.not_eq_true'] at h1 ⊢
    exact not_contains_append h1 hb hcross

theorem headNotSp_append_left {a : Str} (b : Str) (ha : headNotSp a = true) (hane : a ≠ []) :
    headNotSp (a ++ b) = true := by
  cases a with
  | nil => exact absurd rfl hane
  | cons c t => exact ha

theorem cleanSQL_append_semi {a : Str} (h : cleanSQL a = true) (hs : (';' ∈ a) → False) :
    cleanSQL (a ++ [';']) = true := by
  obtain ⟨hne, hne2, hf, hws, hdb, hh, hl, ho, hsemi, hsel⟩ := cleanSQL_spec h
  unfold cleanSQL
  simp only [Bool.and_eq_true]
  refine ⟨⟨⟨⟨⟨⟨⟨⟨⟨?_, ?_⟩, ?_⟩, ?_⟩, ?_⟩, ?_⟩, ?_⟩, ?_⟩, ?_⟩, ?_⟩
  · rw [Bool.not_eq_true']
    cases a <;> rfl
  · rw [Bool.not_eq_true', beq_eq_false_iff_ne]
    intro heq
    have hlen := congrArg List.length heq
    rw [List.length_append] at hlen
    simp at hlen
    exact hne hlen
  · unfold noFence at hf ⊢
    rw [Bool.not_eq_true'] at hf ⊢
    rw [show lowerS (a ++ [';']) = lowerS a ++ lowerS [';'] from List.map_append _ _ _]
    exact not_contains_append hf (by decide) (by decide)
  · unfold wsOK at hws ⊢
    rw [List.all_append, hws]
    decide
  · exact noDbl_append hdb (by decide) hl
  · exact headNotSp_append_left [';'] hh hne
  · exact lastNotSp_append (by decide) (by decide)
  · unfold noOnlyWord at ho ⊢
    rw [Bool.not_eq_true'] at ho ⊢
    rw [show lowerS (a ++ [';']) = lowerS a ++ lowerS [';'] from List.map_append _ _ _]
    exact not_contains_append ho (by decide) (by decide)
  · unfold semiShape
    rw [Bool.and_eq_true]
    constructor
    · rw [Bool.not_eq_true']
      rw [List.dropLast_concat]
      rw [← Bool.not_eq_true]
      intro hany
      obtain ⟨x, hx, hxe⟩ := List.any_eq_true.mp hany
      exact hs (beq_iff_eq.mp hxe ▸ hx)
    · rw [List.reverse_append]
      show (match (';' :: a.reverse : Str) with
            | c :: d :: _ => !(c == ';' && isSpaceC d)
            | _ => true) = true
      cases hrev : a.reverse with
      | nil => rfl
      | cons c t =>
        show (!(';' == ';' && isSpaceC c)) = true
        unfold lastNotSp at hl
        rw [hrev] at hl
        have hc : (!isSpaceC c) = true := hl
        rw [Bool.not_eq_true'] at hc
        rw [hc]
        rfl
  · exact selShape_append hsel (by decide) (by decide)

theorem cleanSQL_append_limit {a : Str} (h : cleanSQL a = true) (hs : (';' ∈ a) → False) :
    cleanSQL (a ++ strL (" LIMIT 50;")) = true := by
  obtain ⟨hne, hne2, hf, hws, hdb, hh, hl, ho, hsemi, hsel⟩ := cleanSQL_spec h
  unfold cleanSQL
  simp only [Bool.and_eq_true]
  refine ⟨⟨⟨⟨⟨⟨⟨⟨⟨?_, ?_⟩, ?_⟩, ?_⟩, ?_⟩, ?_⟩, ?_⟩, ?_⟩, ?_⟩, ?_⟩
  · rw [Bool.not_eq_true']
    cases a <;> rfl
  · rw [Bool.not_eq_true', beq_eq_false_iff_ne]
    intro heq
    have hlen := congrArg List.length heq
    rw [List.length_append] at hlen
    simp [strL] at hlen
  · unfold noFence at hf ⊢
    rw [Bool.not_eq_true'] at hf ⊢
    rw [show lowerS (a ++ strL (" LIMIT 50;")) = lowerS a ++ lowerS (strL (" LIMIT 50;")) from
      List.map_append _ _ _]
    exact not_contains_append hf (by decide) (by decide)
  · unfold wsOK at hws ⊢
    rw [List.all_append, hws]
    decide
  · exact noDbl_append hdb (by decide) hl
  · exact headNotSp_append_left _ hh hne
  · exact lastNotSp_append (by decide) (by decide)
  · unfold noOnlyWord at ho ⊢
    rw [Bool.not_eq_true'] at ho ⊢
    rw [show lowerS (a ++ strL (" LIMIT 50;")) = lowerS a ++ lowerS (strL (" LIMIT 50;")) from
      List.map_append _ _ _]
    exact not_contains_append ho (by decide) (by decide)
  · unfold semiShape
    rw [Bool.and_eq_true]
    constructor
    · rw [Bool.not_eq_true']
      rw [show a ++ strL (" LIMIT 50;") = (a ++ strL (" LIMIT 50")) ++ [';'] from by
        rw [List.append_assoc]
        rfl]
      rw [List.dropLast_concat]
      rw [List.any_append]
      rw [← Bool.not_eq_true]
      intro hor
      rw [Bool.or_eq_true] at hor
      rcases hor with hany | hany
      · obtain ⟨x, hx, hxe⟩ := List.any_eq_true.mp hany
        exact hs (beq_iff_eq.mp hxe ▸ hx)
      · exact absurd hany (by decide)
    · rw [List.reverse_append]
      show (!(';' == ';' && isSpaceC '0')) = true
      decide
  · exact selShape_append hsel (by decide) (by decide)

theorem takeWhile_append_ne_nil {p : Char → Bool} {xs ys : List Char}
    (h : ((xs.takeWhile p).isEmpty) = false) : (((xs ++ ys).takeWhile p).isEmpty) = false := by
  rw [List.takeWhile_append]
  split
  · rw [List.isEmpty_eq_false_iff_exists_mem]
    cases xs with
    | nil =>
      exfalso
      rw [show List.takeWhile p ([] : List Char) = [] from rfl] at h
      exact absurd h (by decide)
    | cons c t => exact ⟨c, List.mem_append_left _ (List.mem_cons_self _ _)⟩
  · exact h

theorem dropWhile_append_ne {p : Char → Bool} {xs ys : List Char}
    (h : ((xs.dropWhile p).isEmpty) = false) :
    (xs ++ ys).dropWhile p = xs.dropWhile p ++ ys := by
  rw [List.dropWhile_append]
  rw [if_neg (by rw [h]; exact Bool.false_ne_true)]

theorem matchCountAt_append {u b : Str} (h : matchCountAt u = true) :
    matchCountAt (u ++ b) = true := by
  simp only [matchCountAt] at h ⊢
  rw [Bool.and_eq_true] at h
  obtain ⟨hsel, hrest⟩ := h
  rw [Bool.and_eq_true] at hrest
  obtain ⟨hsp, hrest2⟩ := hrest
  rw [Bool.and_eq_true] at hrest2
  obtain ⟨hcount, hpar⟩ := hrest2
  have hlen6 : 6 ≤ u.length := by
    have := List.IsPrefix.length_le (List.isPrefixOf_iff_prefix.mp hsel)
    have hmap : (lowerS u).length = u.length := List.length_map _ _
    simp [strL] at this
    omega
  have hdrop : List.drop 6 (u ++ b) = List.drop 6 u ++ b := by
    rw [List.drop_append_eq_append_drop]
    rw [show 6 - u.length = 0 from by omega, List.drop_zero]
  have hsp' : ((List.takeWhile isSpaceC (List.drop 6 u)).isEmpty) = false := by
    rw [Bool.not_eq_true'] at hsp
    exact hsp
  have ht1ne : ((List.dropWhile isSpaceC (List.drop 6 u)).isEmpty) = false := by
    cases ht1 : List.dropWhile isSpaceC (List.drop 6 u) with
    | nil =>
      exfalso
      rw [ht1] at hcount
      rw [show lowerS ([] : Str) = [] from rfl] at hcount
      exact absurd hcount (by decide)
    | cons c t => rfl
  have hdw : List.dropWhile isSpaceC (List.drop 6 u ++ b) =
      List.dropWhile isSpaceC (List.drop 6 u) ++ b := dropWhile_append_ne ht1ne
  rw [Bool.and_eq_true]
  constructor
  · rw [List.isPrefixOf_iff_prefix] at hsel ⊢
    rw [show lowerS (u ++ b) = lowerS u ++ lowerS b from List.map_append _ _ _]
    exact List.IsPrefix.trans hsel (List.prefix_append _ _)
  rw [hdrop]
  rw [Bool.and_eq_true]
  constructor
  · rw [Bool.not_eq_true']
    exact takeWhile_append_ne_nil hsp'
  rw [hdw]
  have hlen5 : 5 ≤ (List.dropWhile isSpaceC (List.drop 6 u)).length := by
    have := List.IsPrefix.length_le (List.isPrefixOf_iff_prefix.mp hcount)
    have hmap : (lowerS (List.dropWhile isSpaceC (List.drop 6 u))).length =
        (List.dropWhile isSpaceC (List.drop 6 u)).length := List.length_map _ _
    simp [strL] at this
    omega
  have hdrop5 : List.drop 5 (List.dropWhile isSpaceC (List.drop 6 u) ++ b) =
      List.drop 5 (List.dropWhile isSpaceC (List.drop 6 u)) ++ b := by
    rw [List.drop_append_eq_append_drop]
    rw [show 5 - (List.dropWhile isSpaceC (List.drop 6 u)).length = 0 from by omega,
      List.drop_zero]
  rw [Bool.and_eq_true]
  constructor
  · rw [List.isPrefixOf_iff_prefix] at hcount ⊢
    rw [show lowerS (List.dropWhile isSpaceC (List.drop 6 u) ++ b) =
        lowerS (List.dropWhile isSpaceC (List.drop 6 u)) ++ lowerS b from List.map_append _ _ _]
    exact List.IsPrefix.trans hcount (List.prefix_append _ _)
  · rw [hdrop5]
    have hparne : ((List.dropWhile isSpaceC
        (List.drop 5 (List.dropWhile isSpaceC (List.drop 6 u)))).isEmpty) = false := by
      cases hx : List.dropWhile isSpaceC
          (List.drop 5 (List.dropWhile isSpaceC (List.drop 6 u))) with
      | nil =>
        exfalso
        rw [hx] at hpar
        exact absurd hpar (by decide)
      | cons c t => rfl
    rw [dropWhile_append_ne hparne]
    rw [List.head?_append]
    cases hx : List.dropWhile isSpaceC
        (List.drop 5 (List.dropWhile isSpaceC (List.drop 6 u))) with
    | nil =>
      rw [hx] at hparne
      exact absurd hparne (by decide)
    | cons c t =>
      rw [hx] at hpar
      have : c = '(' := by
        have h2 := beq_iff_eq.mp hpar
        injection h2
      rw [this]
      rfl

theorem not_mem_semi_of_any_false {s : Str} (h : s.any (fun c => c == ';') = false) :
    (';' ∈ s) → False := by
  intro hm
  have ht : s.any (fun c => c == ';') = true := List.any_eq_true.mpr ⟨';', hm, by decide⟩
  rw [h] at ht
  exact Bool.false_ne_true ht

theorem selShape_of_concat_semi {t : Str} (h : selShape (t ++ [';']) = true) :
    selShape t = true := by
  unfold selShape at h ⊢
  rw [Bool.or_eq_true] at h ⊢
  have hmap : lowerS (t ++ [';']) = lowerS t ++ [';'] := by
    rw [show lowerS (t ++ [';']) = lowerS t ++ lowerS [';'] from List.map_append _ _ _]
    rfl
  rcases h with h | h
  · left
    rw [List.isPrefixOf_iff_prefix] at h ⊢
    rw [hmap] at h
    rcases prefix_append_decomp h with hp | ⟨hp, hd⟩
    · exact hp
    · by_cases hlen : (lowerS t).length < 6
      · exfalso
        have h6 : (lowerS t).length = 0 ∨ (lowerS t).length = 1 ∨ (lowerS t).length = 2 ∨
            (lowerS t).length = 3 ∨ (lowerS t).length = 4 ∨ (lowerS t).length = 5 := by omega
        rcases h6 with hk | hk | hk | hk | hk | hk <;>
          rw [hk] at hd <;> exact absurd hd (by decide)
      · exact List.prefix_of_prefix_length_le h (List.prefix_append _ _) (by
          rw [show (strL ("select")).length = 6 from rfl]
          omega)
  · right
    rw [Bool.not_eq_true'] at h ⊢
    rw [hmap] at h
    exact contains_false_mono (infix_of_pre (List.prefix_append _ _)) h

theorem cleanSQL_rstrip {s : Str} (h : cleanSQL s = true) :
    cleanSQL (rstripSemi s) = true ∧ ((';' ∈ rstripSemi s) → False) ∧ rstripSemi s ≠ [] := by
  obtain ⟨hne, hne2, hf, hws, hdb, hh, hl, ho, hsemi, hsel⟩ := cleanSQL_spec h
  rcases semiShape_cases hsemi hne2 with hno | ⟨t, hts, htne, htmem, htlast⟩
  · have hmem := not_mem_semi_of_any_false hno
    have hr : rstripSemi s = s := rstripSemi_eq_self2 (getLast?_ne_semi hmem)
    rw [hr]
    exact ⟨h, hmem, hne⟩
  · have hr : rstripSemi s = t := by
      rw [hts]
      exact rstripSemi_snoc (getLast?_ne_semi htmem)
    rw [hr]
    refine ⟨?_, htmem, htne⟩
    rw [hts] at hf hws hdb hh ho hsel
    unfold cleanSQL
    simp only [Bool.and_eq_true]
    refine ⟨⟨⟨⟨⟨⟨⟨⟨⟨?_, ?_⟩, ?_⟩, ?_⟩, ?_⟩, ?_⟩, ?_⟩, ?_⟩, ?_⟩, ?_⟩
    · rw [Bool.not_eq_true']
      cases t with
      | nil => exact absurd rfl htne
      | cons c r => rfl
    · rw [Bool.not_eq_true', beq_eq_false_iff_ne]
      intro heq
      rw [heq] at htmem
      exact htmem (by decide)
    · exact noFence_of_pre (List.prefix_append t [';']) hf
    · exact wsOK_of_pre (List.prefix_append t [';']) hws
    · exact noDbl_append_left hdb
    · cases t with
      | nil => exact absurd rfl htne
      | cons c r => exact hh
    · exact htlast
    · exact noOnly_of_pre (List.prefix_append t [';']) ho
    · unfold semiShape
      rw [Bool.and_eq_true]
      constructor
      · rw [Bool.not_eq_true', ← Bool.not_eq_true]
        intro hany
        obtain ⟨x, hx, hxe⟩ := List.any_eq_true.mp hany
        exact htmem (beq_iff_eq.mp hxe ▸ (List.dropLast_prefix t).subset hx)
      · cases hrev : t.reverse with
        | nil => rfl
        | cons c r =>
          cases r with
          | nil => rfl
          | cons d r2 =>
            show (!(c == ';' && isSpaceC d)) = true
            have hc : c ∈ t := by
              have hcr : c ∈ t.reverse := by
                rw [hrev]
                exact List.mem_cons_self _ _
              exact List.mem_reverse.mp hcr
            have hcne : (c == ';') = false := by
              cases hcc : c == ';'
              · rfl
              · exfalso
                have hcq : c = ';' := beq_iff_eq.mp hcc
                rw [hcq] at hc
                exact htmem hc
            rw [hcne]
            rfl
    · exact selShape_of_concat_semi hsel

theorem searchCount_append {u b : Str} (h : searchCount u = true) :
    searchCount (u ++ b) = true := by
  induction u with
  | nil => exact absurd h (by decide)
  | cons c t ih =>
    unfold searchCount at h
    show searchCount (c :: (t ++ b)) = true
    unfold searchCount
    rw [Bool.or_eq_true] at h ⊢
    rcases h with h | h
    · exact Or.inl (matchCountAt_append h)
    · exact Or.inr (ih h)

theorem replaceGo_tail_pre {p q r : Str}
    (hpc : ∀ k, k < p.length → 0 < k → ¬ (List.drop k p <+: r))
    (hlen : p.length ≤ r.length + 1) :
    ∀ (n : Nat) (s : Str) (j : Nat), 0 < j → j < p.length →
      List.drop j p <+: replaceGo q r n s → List.drop j p <+: s := by
  intro n
  induction n with
  | zero =>
    intro s j _ _ h
    cases s with
    | nil => exact h
    | cons c t => exact h
  | succ n ih =>
    intro s j hj0 hjl h
    cases s with
    | nil => exact h
    | cons c t =>
      unfold replaceGo at h
      split at h
      · exfalso
        refine hpc j hjl hj0 ?_
        refine List.prefix_of_prefix_length_le h (List.prefix_append r _) ?_
        rw [List.length_drop]
        omega
      · cases hdj : List.drop j p with
        | nil =>
          exfalso
          have hld := congrArg List.length hdj
          rw [List.length_drop] at hld
          simp at hld
          omega
        | cons u us =>
          rw [hdj] at h
          obtain ⟨hcu, hus⟩ := List.cons_prefix_cons.mp h
          have hdus : List.drop (j + 1) p = us := by
            rw [← List.drop_drop, hdj]
            rfl
          refine List.cons_prefix_cons.mpr ⟨hcu, ?_⟩
          by_cases hlt : j + 1 < p.length
          · have hrec := ih t (j + 1) (by omega) hlt (by rw [hdus]; exact hus)
            rw [hdus] at hrec
            exact hrec
          · have husnil : us = [] := by
              rw [← hdus]
              exact List.drop_eq_nil_of_le (by omega)
            rw [husnil]
            exact List.nil_prefix

theorem replaceGo_kill {p r : Str} (hp : p ≠ [])
    (hpa : containsSeq p r = false)
    (hpb : ∀ i, i < p.length → 0 < i → ¬ (List.take i p <:+ r))
    (hpc : ∀ k, k < p.length → 0 < k → ¬ (List.drop k p <+: r))
    (hlen : p.length ≤ r.length + 1) :
    ∀ (n : Nat) (s : Str), s.length ≤ n →
      containsSeq p (replaceGo p r n s) = false := by
  intro n
  induction n with
  | zero =>
    intro s hsl
    have hs0 : s = [] := List.eq_nil_of_length_eq_zero (by omega)
    rw [hs0]
    cases hq : p with
    | nil => exact absurd hq hp
    | cons a b => rfl
  | succ n ih =>
    intro s hsl
    cases s with
    | nil =>
      cases hq : p with
      | nil => exact absurd hq hp
      | cons a b => rfl
    | cons c t =>
      rw [List.length_cons] at hsl
      unfold replaceGo
      split
      · rw [containsSeq_false_iff]
        intro hinf
        rcases infix_append_decomp hinf with hr | ho | ⟨i, hi0, hil, htk, hdr⟩
        · exact (containsSeq_false_iff.mp hpa) hr
        · have hrec := ih (List.drop (p.length - 1) t) (by
            rw [List.length_drop]
            omega)
          exact (containsSeq_false_iff.mp hrec) ho
        · exact hpb i hil hi0 htk
      · rename_i hmatch
        unfold containsSeq
        rw [Bool.or_eq_false_iff]
        refine ⟨?_, ih t (by omega)⟩
        cases hpre : p.isPrefixOf (c :: replaceGo p r n t) with
        | false => rfl
        | true =>
          exfalso
          rw [List.isPrefixOf_iff_prefix] at hpre
          apply hmatch
          rw [List.isPrefixOf_iff_prefix]
          cases hpp : p with
          | nil => exact absurd hpp hp
          | cons a b =>
            rw [hpp] at hpre
            obtain ⟨hac, hbp⟩ := List.cons_prefix_cons.mp hpre
            have hb1 : List.drop 1 p = b := by
              rw [hpp]
              rfl
            refine List.cons_prefix_cons.mpr ⟨hac, ?_⟩
            by_cases hl1 : 1 < p.length
            · have hx := replaceGo_tail_pre hpc hlen n t 1 (by omega) hl1
                (by rw [hb1]; exact hbp)
              rw [hb1] at hx
              exact hx
            · have hbnil : b = [] := by
                have hl := congrArg List.length hpp
                rw [List.length_cons] at hl
                exact List.eq_nil_of_length_eq_zero (by omega)
              rw [hbnil]
              exact List.nil_prefix

theorem replaceGo_preserve {p q r : Str} (hp : p ≠ [])
    (hpa : containsSeq p r = false)
    (hpb : ∀ i, i < p.length → 0 < i → ¬ (List.take i p <:+ r))
    (hpc : ∀ k, k < p.length → 0 < k → ¬ (List.drop k p <+: r))
    (hlen : p.length ≤ r.length + 1) :
    ∀ (n : Nat) (s : Str), containsSeq p s = false →
      containsSeq p (replaceGo q r n s) = false := by
  intro n
  induction n with
  | zero =>
    intro s hs
    cases s with
    | nil => exact hs
    | cons c t => exact hs
  | succ n ih =>
    intro s hs
    cases s with
    | nil => exact hs
    | cons c t =>
      have hparts := Bool.or_eq_false_iff.mp (by
        rw [show (p.isPrefixOf (c :: t) || containsSeq p t) = containsSeq p (c :: t) from rfl]
        exact hs)
      obtain ⟨h1, h2⟩ := hparts
      unfold replaceGo
      split
      · rw [containsSeq_false_iff]
        intro hinf
        rcases infix_append_decomp hinf with hr | ho | ⟨i, hi0, hil, htk, hdr⟩
        · exact (containsSeq_false_iff.mp hpa) hr
        · have hdropf : containsSeq p (List.drop (q.length - 1) t) = false :=
            contains_false_mono (infix_of_suf (List.drop_suffix _ t)) h2
          exact (containsSeq_false_iff.mp (ih _ hdropf)) ho
        · exact hpb i hil hi0 htk
      · unfold containsSeq
        rw [Bool.or_eq_false_iff]
        refine ⟨?_, ih t h2⟩
        cases hpre : p.isPrefixOf (c :: replaceGo q r n t) with
        | false => rfl
        | true =>
          exfalso
          rw [List.isPrefixOf_iff_prefix] at hpre
          cases hpp : p with
          | nil => exact hp hpp
          | cons a b =>
            rw [hpp] at hpre
            obtain ⟨hac, hbp⟩ := List.cons_prefix_cons.mp hpre
            have hb1 : List.drop 1 p = b := by
              rw [hpp]
              rfl
            have hfalse : p.isPrefixOf (c :: t) = true := by
              rw [List.isPrefixOf_iff_prefix, hpp]
              refine List.cons_prefix_cons.mpr ⟨hac, ?_⟩
              by_cases hl1 : 1 < p.length
              · have hx := replaceGo_tail_pre hpc hlen n t 1 (by omega) hl1
                  (by rw [hb1]; exact hbp)
                rw [hb1] at hx
                exact hx
              · have hbnil : b = [] := by
                  have hl := congrArg List.length hpp
                  rw [List.length_cons] at hl
                  exact List.eq_nil_of_length_eq_zero (by omega)
                rw [hbnil]
                exact List.nil_prefix
            rw [h1] at hfalse
            exact Bool.false_ne_true hfalse

theorem replaceAll_kill {p r : Str} (hp : p ≠ [])
    (hpa : containsSeq p r = false)
    (hpb : ∀ i, i < p.length → 0 < i → ¬ (List.take i p <:+ r))
    (hpc : ∀ k, k < p.length → 0 < k → ¬ (List.drop k p <+: r))
    (hlen : p.length ≤ r.length + 1) (s : Str) :
    containsSeq p (replaceAll p r s) = false := by
  unfold replaceAll
  split
  · rename_i he
    exact absurd (List.isEmpty_iff.mp he) hp
  · exact replaceGo_kill hp hpa hpb hpc hlen s.length s (Nat.le_refl _)

theorem replaceAll_preserve {p q r : Str} (hp : p ≠ [])
    (hpa : containsSeq p r = false)
    (hpb : ∀ i, i < p.length → 0 < i → ¬ (List.take i p <:+ r))
    (hpc : ∀ k, k < p.length → 0 < k → ¬ (List.drop k p <+: r))
    (hlen : p.length ≤ r.length + 1) {s : Str}
    (hs : containsSeq p s = false) :
    containsSeq p (replaceAll q r s) = false := by
  unfold replaceAll
  split
  · exact hs
  · exact replaceGo_preserve hp hpa hpb hpc hlen s.length s hs

theorem attrition_fixups_clean (s : Str) :
    containsSeq (strL ("Attrition = 1")) (attrition_fixups s) = false ∧
    containsSeq (strL ("Attrition=1")) (attrition_fixups s) = false ∧
    containsSeq (strL ("Attrition = 0")) (attrition_fixups s) = false ∧
    containsSeq (strL ("Attrition=0")) (attrition_fixups s) = false := by
  unfold attrition_fixups
  refine ⟨?_, ?_, ?_, ?_⟩
  · apply replaceAll_preserve (by decide) (by decide) (by decide) (by decide) (by decide)
    apply replaceAll_preserve (by decide) (by decide) (by decide) (by decide) (by decide)
    apply replaceAll_preserve (by decide) (by decide) (by decide) (by decide) (by decide)
    exact replaceAll_kill (by decide) (by decide) (by decide) (by decide) (by decide) s
  · apply replaceAll_preserve (by decide) (by decide) (by decide) (by decide) (by decide)
    apply replaceAll_preserve (by decide) (by decide) (by decide) (by decide) (by decide)
    exact replaceAll_kill (by decide) (by decide) (by decide) (by decide) (by decide) _
  · apply replaceAll_preserve (by decide) (by decide) (by decide) (by decide) (by decide)
    exact replaceAll_kill (by decide) (by decide) (by decide) (by decide) (by decide) _
  · exact replaceAll_kill (by decide) (by decide) (by decide) (by decide) (by decide) _

/-- C4 (amended): `repair_sql` applies its guard only when the case-insensitive
detector fires, and the substitutions remove exactly the four case-sensitive
patterns: when the detector fires the returned statement is the four-fold
substitution of the limit-adjusted generator output and contains no occurrence
of "Attrition = 1", "Attrition=1", "Attrition = 0" or "Attrition=0"; when it
does not fire the statement is returned unchanged. (Comparisons in other
letter cases are detected but not rewritten, so the original claim's "any
letter case" clause fails.) -/
theorem C4_repair_guard_exact_patterns (oracle : Oracle) (n : Nat)
    (user_question bad_sql error_msg : Str) (memory : List Msg) :
    (contains_bad_attrition
        (ensure_limit (oracle n (repair_messages user_question bad_sql error_msg)) 50) =
        false →
      (repair_sql oracle n user_question bad_sql error_msg memory).1 =
        ensure_limit (oracle n (repair_messages user_question bad_sql error_msg)) 50) ∧
    (contains_bad_attrition
        (ensure_limit (oracle n (repair_messages user_question bad_sql error_msg)) 50) =
        true →
      (repair_sql oracle n user_question bad_sql error_msg memory).1 =
        attrition_fixups
          (ensure_limit (oracle n (repair_messages user_question bad_sql error_msg)) 50) ∧
      containsSeq (strL ("Attrition = 1"))
        (repair_sql oracle n user_question bad_sql error_msg memory).1 = false ∧
      containsSeq (strL ("Attrition=1"))
        (repair_sql oracle n user_question bad_sql error_msg memory).1 = false ∧
      containsSeq (strL ("Attrition = 0"))
        (repair_sql oracle n user_question bad_sql error_msg memory).1 = false ∧
      containsSeq (strL ("Attrition=0"))
        (repair_sql oracle n user_question bad_sql error_msg memory).1 = false) := by
  constructor
  · intro hb
    simp only [repair_sql]
    rw [if_neg (by rw [hb]; exact Bool.false_ne_true)]
  · intro hb
    have hres : (repair_sql oracle n user_question bad_sql error_msg memory).1 =
        attrition_fixups
          (ensure_limit (oracle n (repair_messages user_question bad_sql error_msg)) 50) := by
      simp only [repair_sql]
      rw [if_pos hb]
    obtain ⟨hc1, hc2, hc3, hc4⟩ := attrition_fixups_clean
      (ensure_limit (oracle n (repair_messages user_question bad_sql error_msg)) 50)
    rw [hres]
    exact ⟨rfl, hc1, hc2, hc3, hc4⟩

theorem C4_witness :
    (repair_sql (constOracle (strL ("SELECT Age FROM employees WHERE Attrition = 1"))) 0
        [] [] [] []).1 =
      attrition_fixups
        (ensure_limit (constOracle (strL ("SELECT Age FROM employees WHERE Attrition = 1"))
          0 (repair_messages [] [] [])) 50) ∧
    containsSeq (strL ("Attrition = 1"))
      (repair_sql (constOracle (strL ("SELECT Age FROM employees WHERE Attrition = 1"))) 0
        [] [] [] []).1 = false ∧
    containsSeq (strL ("Attrition=1"))
      (repair_sql (constOracle (strL ("SELECT Age FROM employees WHERE Attrition = 1"))) 0
        [] [] [] []).1 = false ∧
    containsSeq (strL ("Attrition = 0"))
      (repair_sql (constOracle (strL ("SELECT Age FROM employees WHERE Attrition = 1"))) 0
        [] [] [] []).1 = false ∧
    containsSeq (strL ("Attrition=0"))
      (repair_sql (constOracle (strL ("SELECT Age FROM employees WHERE Attrition = 1"))) 0
        [] [] [] []).1 = false :=
  (C4_repair_guard_exact_patterns
    (constOracle (strL ("SELECT Age FROM employees WHERE Attrition = 1"))) 0
    [] [] [] []).2 (by decide)

/-- C9 (amended): for statements in sanitizer-normal form, `ensure_limit`
(a) appends exactly one " LIMIT 50;" clause after stripping trailing
semicolons when the statement is not of aggregate-count form and contains no
case-insensitive "limit"; (b) returns aggregate-count statements as the
semicolon-stripped statement plus exactly one trailing ';' (so a statement
without a terminator is changed, not untouched); and (c) is idempotent on
such inputs. -/
theorem C9_ensure_limit_contract (s : Str) (hclean : cleanSQL s = true) :
    (searchCount s = false → containsSeq (strL ("limit")) (lowerS s) = false →
      ensure_limit s 50 = rstripSemi s ++ strL (" LIMIT 50;")) ∧
    (searchCount s = true → ensure_limit s 50 = rstripSemi s ++ [';']) ∧
    ensure_limit (ensure_limit s 50) 50 = ensure_limit s 50 := by
  have hE : extract_first_select s = s := extract_eq_self hclean
  obtain ⟨hne, hne2, _, _, _, _, _, _, hsemi, _⟩ := cleanSQL_spec hclean
  have hL : strL (" LIMIT ") ++ (strL (toString 50) ++ ([';'] : Str)) = strL (" LIMIT 50;") := by
    rfl
  have hmain1 : searchCount s = false → containsSeq (strL ("limit")) (lowerS s) = false →
      ensure_limit s 50 = rstripSemi s ++ strL (" LIMIT 50;") := by
    intro hc hlim
    simp only [ensure_limit]
    rw [hE, if_neg (by rw [hc]; exact Bool.false_ne_true),
      if_pos (by rw [hlim]; rfl)]
    rw [List.append_assoc, List.append_assoc, hL]
  have hmain2 : searchCount s = true → ensure_limit s 50 = rstripSemi s ++ [';'] := by
    intro hc
    simp only [ensure_limit]
    rw [hE, if_pos hc]
  have hidem : ensure_limit (ensure_limit s 50) 50 = ensure_limit s 50 := by
    cases hcnt : searchCount s with
    | true =>
      rcases semiShape_cases hsemi hne2 with hno | ⟨t, hts, htne, htmem, htlast⟩
      · have hsmem := not_mem_semi_of_any_false hno
        have hrs : rstripSemi s = s := rstripSemi_eq_self2 (getLast?_ne_semi hsmem)
        have hy : ensure_limit s 50 = s ++ [';'] := by rw [hmain2 hcnt, hrs]
        rw [hy]
        have hcleanY : cleanSQL (s ++ [';']) = true := cleanSQL_append_semi hclean hsmem
        have hEy : extract_first_select (s ++ [';']) = s ++ [';'] := extract_eq_self hcleanY
        have hcnty : searchCount (s ++ [';']) = true := searchCount_append hcnt
        simp only [ensure_limit]
        rw [hEy, if_pos hcnty, rstripSemi_snoc (getLast?_ne_semi hsmem)]
      · have hrs : rstripSemi s = t := by
          rw [hts]
          exact rstripSemi_snoc (getLast?_ne_semi htmem)
        have hy : ensure_limit s 50 = s := by rw [hmain2 hcnt, hrs, hts]
        rw [hy]
        exact hy
    | false =>
      cases hlim : containsSeq (strL ("limit")) (lowerS s) with
      | true =>
        have hy : ensure_limit s 50 = s := by
          simp only [ensure_limit]
          rw [hE, if_neg (by rw [hcnt]; exact Bool.false_ne_true),
            if_neg (by rw [hlim]; exact (by decide : ¬((!true) = true)))]
        rw [hy]
        exact hy
      | false =>
        obtain ⟨hca, hma, hna⟩ := cleanSQL_rstrip hclean
        have hy : ensure_limit s 50 = rstripSemi s ++ strL (" LIMIT 50;") := hmain1 hcnt hlim
        rw [hy]
        have hcleanY : cleanSQL (rstripSemi s ++ strL (" LIMIT 50;")) = true :=
          cleanSQL_append_limit hca hma
        have hEy : extract_first_select (rstripSemi s ++ strL (" LIMIT 50;")) =
            rstripSemi s ++ strL (" LIMIT 50;") := extract_eq_self hcleanY
        have hsplit : rstripSemi s ++ strL (" LIMIT 50;") =
            (rstripSemi s ++ strL (" LIMIT 50")) ++ [';'] := by
          rw [List.append_assoc]
          rfl
        have hlast0 : (rstripSemi s ++ strL (" LIMIT 50")).getLast? ≠ some ';' := by
          rw [show rstripSemi s ++ strL (" LIMIT 50") =
              (rstripSemi s ++ strL (" LIMIT 5")) ++ ['0'] from by rw [List.append_assoc]; rfl]
          rw [List.getLast?_concat]
          decide
        have hrsY : rstripSemi (rstripSemi s ++ strL (" LIMIT 50;")) =
            rstripSemi s ++ strL (" LIMIT 50") := by
          rw [hsplit]
          exact rstripSemi_snoc hlast0
        simp only [ensure_limit]
        rw [hEy]
        split
        · rw [hrsY]
          exact hsplit.symm
        · have hcl : containsSeq (strL ("limit"))
              (lowerS (rstripSemi s ++ strL (" LIMIT 50;"))) = true := by
            rw [show lowerS (rstripSemi s ++ strL (" LIMIT 50;")) =
                lowerS (rstripSemi s) ++ lowerS (strL (" LIMIT 50;")) from
              List.map_append _ _ _]
            exact contains_append_right (by decide)
          rw [if_neg (by rw [hcl]; exact (by decide : ¬((!true) = true)))]
  exact ⟨hmain1, hmain2, hidem⟩

theorem C9_witness :
    cleanSQL (strL ("SELECT Age FROM employees")) = true ∧
    ((searchCount (strL ("SELECT Age FROM employees")) = false →
      containsSeq (strL ("limit")) (lowerS (strL ("SELECT Age FROM employees"))) = false →
      ensure_limit (strL ("SELECT Age FROM employees")) 50 =
        rstripSemi (strL ("SELECT Age FROM employees")) ++ strL (" LIMIT 50;")) ∧
     (searchCount (strL ("SELECT Age FROM employees")) = true →
      ensure_limit (strL ("SELECT Age FROM employees")) 50 =
        rstripSemi (strL ("SELECT Age FROM employees")) ++ [';']) ∧
     ensure_limit (ensure_limit (strL ("SELECT Age FROM employees")) 50) 50 =
       ensure_limit (strL ("SELECT Age FROM employees")) 50) :=
  ⟨by decide, C9_ensure_limit_contract (strL ("SELECT Age FROM employees")) (by decide)⟩

end HRBot
